import Mathlib

/-!
# EnTT `ComponentPool`

A shallow embedding of `src/component_pool.hpp`: the single-component pool (a
sparse set) and the multi-component pool that owns one such set per declared
component type.

* The three `std::vector`s of the pool are lists; an entity is a natural number
  below `2 ^ bits`, where `bits` is the width of the unsigned `entity_type`.
* The model is that of a checked build: a failed `assert` is the fault
  `Fault.assertion`.  An access outside the bounds of a vector (undefined
  behaviour in C++) is the fault `Fault.outOfBounds`.
* `pos_type` is `entity_type`, so the slot stored by `construct` is the size of
  `direct` converted to the entity type (reduced modulo `2 ^ bits`).
* `entity + 1` is evaluated in the type C++ gives it: modulo `2 ^ bits` for an
  entity type at least as wide as `int` (`unsigned`, `std::uint32_t`,
  `std::uint64_t`), and without wrap-around for a narrower one, which is
  promoted to `int` first.
* Memory capacity (`reserve`, `capacity`) and allocation failure are outside the
  model.
* The base classes of the multi-component pool are a family of pools indexed by
  the position of the component type in the template parameter list.
-/

namespace entt

/-- Ways a call can fail in a checked build. -/
inductive Fault where
  | assertion
  | outOfBounds
  deriving DecidableEq, Repr

deriving instance DecidableEq for Except

/-- The template parameter `Entity`: an unsigned integer type.  `bits` is its
width; `wide` says that its conversion rank is at least that of `int`, so that
arithmetic on it is carried out in the type itself. -/
structure EntityType where
  bits : Nat
  wide : Bool
  deriving DecidableEq, Repr

/-- A 32-bit unsigned entity, `std::uint32_t`. -/
def uint32 : EntityType := ⟨32, true⟩

/-- A 16-bit unsigned entity, `std::uint16_t` (promoted to `int` in arithmetic). -/
def uint16 : EntityType := ⟨16, false⟩

/-- The value of the C++ expression `entity + 1`, converted to `size_type`. -/
def EntityType.succ (T : EntityType) (entity : Nat) : Nat :=
  if T.wide then (entity + 1) % 2 ^ T.bits else entity + 1

/-- The conversion `pos_type(n)` of a size to the entity type. -/
def EntityType.pos_type (T : EntityType) (n : Nat) : Nat :=
  n % 2 ^ T.bits

/-! ## `std::vector` primitives -/

/-- Read `xs[i]`. -/
def vec_read {β : Type} (xs : List β) (i : Nat) : Except Fault β :=
  if h : i < xs.length then .ok xs[i] else .error .outOfBounds

/-- Assign `xs[i] = x`. -/
def vec_write {β : Type} (xs : List β) (i : Nat) (x : β) : Except Fault (List β) :=
  if i < xs.length then .ok (xs.set i x) else .error .outOfBounds

/-- Call `xs.pop_back()`. -/
def pop_back {β : Type} (xs : List β) : Except Fault (List β) :=
  if 0 < xs.length then .ok xs.dropLast else .error .outOfBounds

/-- Call `xs.resize(n)` on a vector of `pos_type`: truncate, or pad with
value-initialised (zero) elements. -/
def resize (xs : List Nat) (n : Nat) : List Nat :=
  xs.take n ++ List.replicate (n - xs.length) 0

/-! ## The pool -/

/-- State of `ComponentPool<Entity, Component>`. -/
structure ComponentPool (α : Type) where
  /-- Component storage. -/
  data : List α
  /-- Entity -> component index map. -/
  reverse : List Nat
  /-- Component index -> entity map. -/
  direct : List Nat
  deriving DecidableEq, Repr

namespace ComponentPool

variable {α : Type}

/-- The constructor `ComponentPool(dim)`: three empty vectors (`dim` only
reserves capacity). -/
def create (_dim : Nat := 4098) : ComponentPool α := ⟨[], [], []⟩

/-- The private member `valid`. -/
def valid (p : ComponentPool α) (entity : Nat) : Bool :=
  if h₁ : entity < p.reverse.length then
    if h₂ : p.reverse[entity] < p.direct.length then
      p.direct[p.reverse[entity]] == entity
    else false
  else false

/-- Member `empty`. -/
def empty (p : ComponentPool α) : Bool := p.data.isEmpty

/-- Member `size`. -/
def size (p : ComponentPool α) : Nat := p.data.length

/-- Member `entities`: the contents of `direct`. -/
def entities (p : ComponentPool α) : List Nat := p.direct

/-- Member `has`. -/
def has (p : ComponentPool α) (entity : Nat) : Bool := p.valid entity

/-- Member `get`. -/
def get (p : ComponentPool α) (entity : Nat) : Except Fault α :=
  if p.valid entity then do
    let r ← vec_read p.reverse entity
    vec_read p.data r
  else .error .assertion

/-- Member `construct(entity, args...)`; `args` stands for the component built
from the arguments.  The result is the new state and the returned reference
`data.back()`, as an index into `data`. -/
def construct (T : EntityType) (p : ComponentPool α) (entity : Nat) (args : α) :
    Except Fault (ComponentPool α × Nat) :=
  if p.valid entity then .error .assertion
  else do
    let reverse := if ¬ entity < p.reverse.length then resize p.reverse (T.succ entity)
      else p.reverse
    let reverse ← vec_write reverse entity (T.pos_type p.direct.length)
    let direct := p.direct ++ [entity]
    let data := p.data ++ [args]
    .ok (⟨data, reverse, direct⟩, data.length - 1)

/-- Member `construct(entity, component&&)`, the overload taking a
preconstructed component. -/
def construct_component (T : EntityType) (p : ComponentPool α) (entity : Nat) (component : α) :
    Except Fault (ComponentPool α × Nat) :=
  if p.valid entity then .error .assertion
  else do
    let reverse := if ¬ entity < p.reverse.length then resize p.reverse (T.succ entity)
      else p.reverse
    let reverse ← vec_write reverse entity (T.pos_type p.direct.length)
    let direct := p.direct ++ [entity]
    let data := p.data ++ [component]
    .ok (⟨data, reverse, direct⟩, data.length - 1)

/-- Member `destroy`. -/
def destroy (p : ComponentPool α) (entity : Nat) : Except Fault (ComponentPool α) :=
  if p.valid entity then do
    let last := p.direct.length - 1
    -- reverse[direct[last]] = reverse[entity];
    let moved ← vec_read p.direct last
    let slot ← vec_read p.reverse entity
    let reverse ← vec_write p.reverse moved slot
    -- direct[reverse[entity]] = direct[last];
    let slot ← vec_read reverse entity
    let moved ← vec_read p.direct last
    let direct ← vec_write p.direct slot moved
    -- data[reverse[entity]] = std::move(data[last]);
    let slot ← vec_read reverse entity
    let component ← vec_read p.data last
    let data ← vec_write p.data slot component
    let direct ← pop_back direct
    let data ← pop_back data
    .ok ⟨data, reverse, direct⟩
  else .error .assertion

/-- Member `reset`. -/
def reset (p : ComponentPool α) : ComponentPool α :=
  { data := [], reverse := resize p.reverse 0, direct := [] }

/-- Read through a reference returned by `construct`. -/
def deref (p : ComponentPool α) (ref : Nat) : Except Fault α := vec_read p.data ref

/-- The destructor, which asserts that the pool is empty. -/
def destructor (p : ComponentPool α) : Except Fault Unit :=
  if p.empty then .ok () else .error .assertion

/-- The private member `valid` again, with every vector access made through the
checked primitive `vec_read` and the pool handed back with the result: `&&`
evaluates its right operand only when the left one is true, and a `const`
member only reads. -/
def valid_checked (p : ComponentPool α) (entity : Nat) : Except Fault (Bool × ComponentPool α) :=
  if entity < p.reverse.length then do
    let slot ← vec_read p.reverse entity
    if slot < p.direct.length then do
      let owner ← vec_read p.direct slot
      .ok (owner == entity, p)
    else .ok (false, p)
  else .ok (false, p)

/-- Member `has`, with checked accesses. -/
def has_checked (p : ComponentPool α) (entity : Nat) : Except Fault (Bool × ComponentPool α) :=
  p.valid_checked entity

end ComponentPool

/-! ## Calls and reachable states -/

/-- A call of the public interface that changes the pool. -/
inductive Call (α : Type) where
  | construct (entity : Nat) (args : α)
  | construct_component (entity : Nat) (component : α)
  | destroy (entity : Nat)
  | reset

/-- Run one call; the reference returned by `construct` is dropped. -/
def Call.run {α : Type} (T : EntityType) (p : ComponentPool α) : Call α → Except Fault (ComponentPool α)
  | .construct entity args => (p.construct T entity args).map Prod.fst
  | .construct_component entity component => (p.construct_component T entity component).map Prod.fst
  | .destroy entity => p.destroy entity
  | .reset => .ok p.reset

/-- The call honours its precondition in state `p`: `construct` needs an absent
entity, `destroy` a present one. -/
def Call.honoured {α : Type} (p : ComponentPool α) : Call α → Prop
  | .construct entity _ => p.has entity = false
  | .construct_component entity _ => p.has entity = false
  | .destroy entity => p.has entity = true
  | .reset => True

/-- The growth step of a `construct` call does not wrap around (see
`ComponentPool.construct`); vacuous for the other calls. -/
def Call.fits {α : Type} (T : EntityType) (p : ComponentPool α) : Call α → Prop
  | .construct entity _ => entity < p.reverse.length ∨ T.succ entity = entity + 1
  | .construct_component entity _ => entity < p.reverse.length ∨ T.succ entity = entity + 1
  | .destroy _ => True
  | .reset => True

/-- The entity passed to `construct` is a value of the entity type `T`. -/
def Call.typed {α : Type} (T : EntityType) : Call α → Prop
  | .construct entity _ => entity < 2 ^ T.bits
  | .construct_component entity _ => entity < 2 ^ T.bits
  | .destroy _ => True
  | .reset => True

instance {α : Type} (T : EntityType) (c : Call α) : Decidable (c.typed T) := by
  cases c <;> unfold Call.typed <;> infer_instance

/-- Run a sequence of calls from left to right, stopping at the first fault. -/
def run_calls {α : Type} (T : EntityType) (p : ComponentPool α) :
    List (Call α) → Except Fault (ComponentPool α)
  | [] => .ok p
  | c :: cs => match c.run T p with
    | .ok q => run_calls T q cs
    | .error f => .error f

/-- States reachable from a freshly constructed pool by calls on entities of
type `T`, none of which faults. -/
inductive Reachable {α : Type} (T : EntityType) : ComponentPool α → Prop where
  | create (dim : Nat) : Reachable T (ComponentPool.create dim)
  | step {p q : ComponentPool α} (c : Call α) :
      Reachable T p → c.typed T → c.run T p = .ok q → Reachable T q

namespace ComponentPool

variable {α : Type}

/-- The representation invariant of the pool for entities of type `T`. -/
structure Inv (T : EntityType) (p : ComponentPool α) : Prop where
  len : p.data.length = p.direct.length
  rev : ∀ i e : Nat, p.direct[i]? = some e → p.reverse[e]? = some i
  typed : ∀ e ∈ p.direct, e < 2 ^ T.bits

end ComponentPool

/-! ## Auxiliary definitions of the proofs -/

/-- The entity-to-slot vector after the growth step of `construct`: padded with
zeros up to index `e` when it is too short, unchanged otherwise. -/
def grow (rev : List Nat) (e : Nat) : List Nat :=
  rev ++ List.replicate (e + 1 - rev.length) 0

namespace ComponentPool

variable {α : Type}

/-- The state `construct` leaves behind when it does not fault. -/
def constructed (T : EntityType) (p : ComponentPool α) (e : Nat) (v : α) : ComponentPool α :=
  { data := p.data ++ [v]
    reverse := (grow p.reverse e).set e (T.pos_type p.direct.length)
    direct := p.direct ++ [e] }

/-- The growth step of `construct` reaches index `e`: either `reverse` is long
enough already, or `entity + 1` does not wrap around. -/
def Fits (T : EntityType) (p : ComponentPool α) (e : Nat) : Prop :=
  e < p.reverse.length ∨ T.succ e = e + 1

instance (T : EntityType) (p : ComponentPool α) (e : Nat) : Decidable (Fits T p e) := by
  unfold Fits; infer_instance

/-- The state `destroy` leaves behind when it does not fault: `r` is the slot of
the destroyed entity, `m` the entity in the last slot and `c` its component. -/
def destroyed (p : ComponentPool α) (r m : Nat) (c : α) : ComponentPool α :=
  { data := (p.data.set r c).dropLast
    reverse := p.reverse.set m r
    direct := (p.direct.set r m).dropLast }

/-- What `destroy` reads in a state satisfying the invariant. -/
structure Slots (p : ComponentPool α) (e r m : Nat) (c : α) : Prop where
  slot : p.reverse[e]? = some r
  owner : p.direct[r]? = some e
  moved : p.direct[p.direct.length - 1]? = some m
  moved_slot : p.reverse[m]? = some (p.direct.length - 1)
  component : p.data[p.direct.length - 1]? = some c

end ComponentPool

/-! ## The scenario of the specification -/

/-- The pool of the specification's scenario after `construct(3, 30)`,
`construct(7, 70)`, `construct(1, 10)` on entities of type `std::uint32_t`. -/
def scenario : ComponentPool Nat :=
  { data := [30, 70, 10], reverse := [0, 2, 0, 0, 0, 0, 0, 1], direct := [3, 7, 1] }

/-- The calls that build `scenario`. -/
def scenario_calls : List (Call Nat) :=
  [.construct 3 30, .construct 7 70, .construct 1 10]

/-- The scenario pool after `destroy(7)`: entity 1 has moved into slot 1. -/
def scenario_destroyed : ComponentPool Nat :=
  { data := [30, 10], reverse := [0, 1, 0, 0, 0, 0, 0, 1], direct := [3, 1] }

/-- The pool of the scenario's first call followed by its undoing:
`construct(3, 30)` then `destroy(3)`.  It is empty, but `reverse` keeps the four
entries the growth step created. -/
def emptied : ComponentPool Nat :=
  { data := [], reverse := [0, 0, 0, 0], direct := [] }

/-! ## The bookkeeping of the specification -/

/-- One step of the bookkeeping of the specification: an entity becomes
present when constructed and absent when destroyed; `reset` leaves none. -/
def Call.track {α : Type} (s : Finset Nat) : Call α → Finset Nat
  | .construct entity _ => insert entity s
  | .construct_component entity _ => insert entity s
  | .destroy entity => s.erase entity
  | .reset => ∅

/-- The entities constructed and not yet destroyed by a sequence of calls on a
fresh pool, in the specification's words. -/
def present_after {α : Type} (calls : List (Call α)) : Finset Nat :=
  calls.foldl Call.track ∅

/-! ## The multi-component pool -/

/-- State of `ComponentPool<Entity, Component, Components...>`: one base-class
sub-object `Pool<Comp>` for each declared component type.  The declared types
are numbered in declaration order, and `C i` is the type numbered `i`. -/
structure MultiComponentPool (n : Nat) (C : Fin n → Type) where
  pool : (i : Fin n) → ComponentPool (C i)

namespace MultiComponentPool

variable {n : Nat} {C : Fin n → Type}

/-- The constructor: every base is constructed with the same `dim`. -/
def create (dim : Nat := 4098) : MultiComponentPool n C :=
  ⟨fun _ => ComponentPool.create dim⟩

/-- The object with the base sub-object `Pool<Comp>` replaced. -/
def with_pool (m : MultiComponentPool n C) (i : Fin n) (q : ComponentPool (C i)) :
    MultiComponentPool n C :=
  ⟨Function.update m.pool i q⟩

/-- Member `empty<Comp>`. -/
def empty (m : MultiComponentPool n C) (i : Fin n) : Bool := (m.pool i).empty

/-- Member `size<Comp>`. -/
def size (m : MultiComponentPool n C) (i : Fin n) : Nat := (m.pool i).size

/-- Member `entities<Comp>`. -/
def entities (m : MultiComponentPool n C) (i : Fin n) : List Nat := (m.pool i).entities

/-- Member `has<Comp>`. -/
def has (m : MultiComponentPool n C) (i : Fin n) (entity : Nat) : Bool := (m.pool i).has entity

/-- Member `get<Comp>`. -/
def get (m : MultiComponentPool n C) (i : Fin n) (entity : Nat) : Except Fault (C i) :=
  (m.pool i).get entity

/-- Member `construct<Comp>(entity, args...)`. -/
def construct (T : EntityType) (m : MultiComponentPool n C) (i : Fin n) (entity : Nat)
    (args : C i) : Except Fault (MultiComponentPool n C × Nat) :=
  ((m.pool i).construct T entity args).map fun r => (m.with_pool i r.1, r.2)

/-- Member `construct<Comp>(entity, Comp&&)`.  Its parameter `component` is an
lvalue inside the body, so `Pool<Comp>::construct(entity, component)` selects
the variadic overload of the base. -/
def construct_component (T : EntityType) (m : MultiComponentPool n C) (i : Fin n) (entity : Nat)
    (component : C i) : Except Fault (MultiComponentPool n C × Nat) :=
  ((m.pool i).construct T entity component).map fun r => (m.with_pool i r.1, r.2)

/-- Member `destroy<Comp>`. -/
def destroy (m : MultiComponentPool n C) (i : Fin n) (entity : Nat) :
    Except Fault (MultiComponentPool n C) :=
  ((m.pool i).destroy entity).map (m.with_pool i)

/-- Member `reset<Comp>`. -/
def reset (m : MultiComponentPool n C) (i : Fin n) : MultiComponentPool n C :=
  m.with_pool i (m.pool i).reset

/-- Member `reset()` without a type parameter: `Pool<Component>::reset()`, then
`Pool<Components>::reset()...` from left to right. -/
def reset_all (m : MultiComponentPool n C) : MultiComponentPool n C :=
  (List.finRange n).foldl reset m

end MultiComponentPool

/-- A pool of two component types holding naturals: the first base is the
scenario pool, the second is empty. -/
def two_pools : MultiComponentPool 2 (fun _ => Nat) :=
  ⟨fun i => if i = 0 then scenario else ComponentPool.create⟩

open ComponentPool

/-! ## Vector primitives: basic facts -/

theorem vec_read_of_getElem? {β : Type} {xs : List β} {i : Nat} {x : β} (h : xs[i]? = some x) :
    vec_read xs i = .ok x := by
  obtain ⟨hi, rfl⟩ := List.getElem?_eq_some.1 h
  simp [vec_read, hi]

theorem vec_read_ok_iff {β : Type} {xs : List β} {i : Nat} {x : β} :
    vec_read xs i = .ok x ↔ xs[i]? = some x := by
  constructor
  · intro h
    unfold vec_read at h
    split at h
    · rename_i hi
      simp only [Except.ok.injEq] at h
      simp [List.getElem?_eq_getElem hi, h]
    · cases h
  · exact vec_read_of_getElem?

theorem vec_write_of_lt {β : Type} {xs : List β} {i : Nat} (x : β) (h : i < xs.length) :
    vec_write xs i x = .ok (xs.set i x) := by
  simp [vec_write, h]

theorem vec_write_of_le {β : Type} {xs : List β} {i : Nat} (x : β) (h : xs.length ≤ i) :
    vec_write xs i x = .error .outOfBounds := by
  simp [vec_write, Nat.not_lt.2 h]

theorem pop_back_of_pos {β : Type} {xs : List β} (h : 0 < xs.length) :
    pop_back xs = .ok xs.dropLast := by
  simp [pop_back, h]

theorem length_resize (xs : List Nat) (n : Nat) : (resize xs n).length = n := by
  simp [resize]; omega

theorem getElem?_resize_of_lt {xs : List Nat} {n i : Nat} (h : i < xs.length) (hn : xs.length ≤ n) :
    (resize xs n)[i]? = xs[i]? := by
  unfold resize
  rw [List.take_of_length_le hn, List.getElem?_append_left h]

theorem EntityType.succ_le (T : EntityType) (e : Nat) : T.succ e ≤ e + 1 := by
  unfold EntityType.succ
  split
  · exact Nat.mod_le _ _
  · exact Nat.le_refl _

namespace ComponentPool

variable {α : Type}

/-! ## `valid` and the invariant -/

theorem valid_iff (p : ComponentPool α) (e : Nat) :
    p.valid e = true ↔ ∃ r, p.reverse[e]? = some r ∧ p.direct[r]? = some e := by
  unfold valid
  constructor
  · intro h
    split at h
    · rename_i h₁
      split at h
      · rename_i h₂
        exact ⟨p.reverse[e], List.getElem?_eq_getElem h₁, by
          rw [List.getElem?_eq_getElem h₂]; simpa using h⟩
      · cases h
    · cases h
  · rintro ⟨r, hr, hd⟩
    obtain ⟨h₁, rfl⟩ := List.getElem?_eq_some.1 hr
    obtain ⟨h₂, h₃⟩ := List.getElem?_eq_some.1 hd
    simp [h₁, h₂, h₃]

theorem valid_false_iff (p : ComponentPool α) (e : Nat) :
    p.valid e = false ↔ ¬ ∃ r, p.reverse[e]? = some r ∧ p.direct[r]? = some e := by
  rw [← valid_iff]; simp

theorem Inv.valid_iff_mem {T : EntityType} {p : ComponentPool α} (h : Inv T p) (e : Nat) :
    p.valid e = true ↔ e ∈ p.direct := by
  rw [valid_iff, List.mem_iff_getElem?]
  constructor
  · rintro ⟨r, -, hd⟩; exact ⟨r, hd⟩
  · rintro ⟨i, hi⟩; exact ⟨i, h.rev i e hi, hi⟩

theorem Inv.nodup {T : EntityType} {p : ComponentPool α} (h : Inv T p) : p.direct.Nodup := by
  rw [List.nodup_iff_getElem?_ne_getElem?]
  intro i j hij hj heq
  have hj' := List.getElem?_eq_getElem hj
  have hi' : p.direct[i]? = some p.direct[j] := by rw [heq, hj']
  have h1 := h.rev i _ hi'
  have h2 := h.rev j _ hj'
  rw [h1] at h2
  simp only [Option.some.injEq] at h2
  omega

theorem Inv.length_le {T : EntityType} {p : ComponentPool α} (h : Inv T p) :
    p.direct.length ≤ 2 ^ T.bits := by
  have hs : p.direct ⊆ List.range (2 ^ T.bits) := fun e he => List.mem_range.2 (h.typed e he)
  simpa using (List.subperm_of_subset h.nodup hs).length_le

theorem Inv.length_lt {T : EntityType} {p : ComponentPool α} (h : Inv T p) {e : Nat}
    (he : e < 2 ^ T.bits) (hv : p.valid e = false) : p.direct.length < 2 ^ T.bits := by
  have hmem : e ∉ p.direct := by
    intro hm
    rw [(h.valid_iff_mem e).2 hm] at hv
    cases hv
  have hnd : (e :: p.direct).Nodup := List.nodup_cons.2 ⟨hmem, h.nodup⟩
  have hs : (e :: p.direct) ⊆ List.range (2 ^ T.bits) := by
    intro x hx
    rcases List.mem_cons.1 hx with rfl | hx
    · exact List.mem_range.2 he
    · exact List.mem_range.2 (h.typed x hx)
  have := (List.subperm_of_subset hnd hs).length_le
  simp only [List.length_cons, List.length_range] at this
  omega

end ComponentPool

theorem length_grow (rev : List Nat) (e : Nat) : (grow rev e).length = max rev.length (e + 1) := by
  simp [grow]; omega

theorem lt_length_grow (rev : List Nat) (e : Nat) : e < (grow rev e).length := by
  rw [length_grow]; omega

theorem getElem?_grow_of_lt {rev : List Nat} {e i : Nat} (h : i < rev.length) :
    (grow rev e)[i]? = rev[i]? := by
  unfold grow
  rw [List.getElem?_append_left h]

theorem grow_of_lt {rev : List Nat} {e : Nat} (h : e < rev.length) : grow rev e = rev := by
  have : e + 1 - rev.length = 0 := by omega
  simp [grow, this]

theorem resize_eq_grow {rev : List Nat} {e : Nat} (h : rev.length ≤ e) :
    resize rev (e + 1) = grow rev e := by
  unfold resize grow
  rw [List.take_of_length_le (by omega)]

namespace ComponentPool

variable {α : Type}

/-! ## Closed forms of `construct` and `destroy` -/

theorem construct_eq (T : EntityType) (p : ComponentPool α) (e : Nat) (v : α) :
    p.construct T e v =
      if p.valid e then .error .assertion
      else if Fits T p e then .ok (constructed T p e v, p.data.length)
      else .error .outOfBounds := by
  unfold construct
  by_cases hv : p.valid e = true
  · simp [hv]
  · simp only [hv, Bool.false_eq_true, if_false]
    by_cases hlt : e < p.reverse.length
    · have hf : Fits T p e := Or.inl hlt
      simp [hf, hlt, bind, Except.bind, vec_write, constructed, grow_of_lt hlt]
    · have hle : p.reverse.length ≤ e := Nat.not_lt.1 hlt
      by_cases hs : T.succ e = e + 1
      · have hf : Fits T p e := Or.inr hs
        simp [hf, hlt, bind, Except.bind, vec_write, constructed, hs,
          resize_eq_grow hle, lt_length_grow]
      · have hf : ¬ Fits T p e := by
          rintro (h | h)
          · exact hlt h
          · exact hs h
        have hle2 : T.succ e ≤ e := by
          have := T.succ_le e
          omega
        simp [hf, hlt, bind, Except.bind, vec_write, length_resize, Nat.not_lt.2 hle2]

theorem construct_component_eq (T : EntityType) (p : ComponentPool α) (e : Nat) (v : α) :
    p.construct_component T e v = p.construct T e v := rfl

theorem destroy_eq {p : ComponentPool α} {e r m : Nat} {c : α}
    (hr : p.reverse[e]? = some r) (hd : p.direct[r]? = some e)
    (hm : p.direct[p.direct.length - 1]? = some m) (hmr : m < p.reverse.length)
    (hc : p.data[p.direct.length - 1]? = some c) (hlen : p.data.length = p.direct.length) :
    p.destroy e = .ok (destroyed p r m c) := by
  have hv : p.valid e = true := (valid_iff p e).2 ⟨r, hr, hd⟩
  obtain ⟨hrl, -⟩ := List.getElem?_eq_some.1 hd
  have hr2 : (p.reverse.set m r)[e]? = some r := by
    rw [List.getElem?_set]
    split
    · simp [hmr]
    · exact hr
  unfold destroy
  simp only [hv, if_true, bind, Except.bind, vec_read_of_getElem? hm, vec_read_of_getElem? hr,
    vec_write_of_lt r hmr, vec_read_of_getElem? hr2, vec_write_of_lt m hrl,
    vec_read_of_getElem? hc, vec_write_of_lt c (hlen ▸ hrl)]
  rw [pop_back_of_pos (by rw [List.length_set]; omega),
    pop_back_of_pos (by rw [List.length_set]; omega)]
  rfl

end ComponentPool

theorem getElem?_set_dropLast {β : Type} (xs : List β) (r i : Nat) (x : β) (hr : r < xs.length) :
    ((xs.set r x).dropLast)[i]? =
      if i < xs.length - 1 then (if r = i then some x else xs[i]?) else none := by
  rw [List.getElem?_dropLast, List.length_set, List.getElem?_set]
  simp [hr]

namespace ComponentPool

variable {α : Type}

/-! ## The invariant is preserved -/

theorem Inv.of_create (T : EntityType) (dim : Nat) : Inv T (ComponentPool.create dim : ComponentPool α) :=
  ⟨rfl, by intro i e h; simp [ComponentPool.create] at h, by intro e h; simp [ComponentPool.create] at h⟩

theorem Inv.of_reset (T : EntityType) (p : ComponentPool α) : Inv T p.reset :=
  ⟨rfl, by intro i e h; simp [ComponentPool.reset] at h, by intro e h; simp [ComponentPool.reset] at h⟩

theorem Inv.pos_type_length {T : EntityType} {p : ComponentPool α} (h : Inv T p) {e : Nat}
    (he : e < 2 ^ T.bits) (hv : p.valid e = false) : T.pos_type p.direct.length = p.direct.length :=
  Nat.mod_eq_of_lt (h.length_lt he hv)

theorem Inv.not_mem {T : EntityType} {p : ComponentPool α} (h : Inv T p) {e : Nat}
    (hv : p.valid e = false) : e ∉ p.direct := by
  intro hm
  rw [(h.valid_iff_mem e).2 hm] at hv
  cases hv

theorem Inv.of_constructed {T : EntityType} {p : ComponentPool α} (h : Inv T p) {e : Nat}
    (he : e < 2 ^ T.bits) (hv : p.valid e = false) (v : α) : Inv T (constructed T p e v) := by
  refine ⟨?_, ?_, ?_⟩
  · simp [ComponentPool.constructed, h.len]
  · intro i x hx
    simp only [ComponentPool.constructed] at hx ⊢
    rw [h.pos_type_length he hv]
    rw [List.getElem?_append] at hx
    split at hx
    · have hxm : x ∈ p.direct := List.mem_iff_getElem?.2 ⟨i, hx⟩
      have hne : e ≠ x := fun hex => h.not_mem hv (hex ▸ hxm)
      have hri := h.rev i x hx
      rw [List.getElem?_set_ne hne, getElem?_grow_of_lt (List.getElem?_eq_some.1 hri).1]
      exact hri
    · rename_i hi
      have hi0 : i - p.direct.length = 0 := by
        by_contra hne
        rw [List.getElem?_eq_none (by simp; omega)] at hx
        cases hx
      rw [hi0] at hx
      simp only [List.getElem?_cons_zero, Option.some.injEq] at hx
      subst hx
      rw [List.getElem?_set_self (lt_length_grow _ _)]
      congr 1
      omega
  · intro x hx
    simp only [ComponentPool.constructed, List.mem_append, List.mem_singleton] at hx
    rcases hx with hx | rfl
    · exact h.typed x hx
    · exact he

theorem Inv.slots {T : EntityType} {p : ComponentPool α} (h : Inv T p) {e : Nat}
    (hv : p.valid e = true) : ∃ r m c, Slots p e r m c := by
  obtain ⟨r, hr, hd⟩ := (valid_iff p e).1 hv
  have hrl : r < p.direct.length := (List.getElem?_eq_some.1 hd).1
  have hl : p.direct.length - 1 < p.direct.length := by omega
  have hl2 : p.direct.length - 1 < p.data.length := by rw [h.len]; exact hl
  exact ⟨r, p.direct[p.direct.length - 1], p.data[p.direct.length - 1], hr, hd,
    List.getElem?_eq_getElem hl, h.rev _ _ (List.getElem?_eq_getElem hl),
    List.getElem?_eq_getElem hl2⟩

theorem Slots.lt {p : ComponentPool α} {e r m : Nat} {c : α} (s : Slots p e r m c) :
    r < p.direct.length := (List.getElem?_eq_some.1 s.owner).1

theorem Inv.destroy_ok {T : EntityType} {p : ComponentPool α} (h : Inv T p) {e r m : Nat} {c : α}
    (s : Slots p e r m c) : p.destroy e = .ok (destroyed p r m c) :=
  ComponentPool.destroy_eq s.slot s.owner s.moved (List.getElem?_eq_some.1 s.moved_slot).1
    s.component h.len

theorem Inv.direct_destroyed {T : EntityType} {p : ComponentPool α} (_h : Inv T p) {e r m : Nat}
    {c : α} (s : Slots p e r m c) (i : Nat) :
    (destroyed p r m c).direct[i]? =
      if i < p.direct.length - 1 then (if r = i then some m else p.direct[i]?) else none :=
  getElem?_set_dropLast _ _ _ _ s.lt

theorem Inv.data_destroyed {T : EntityType} {p : ComponentPool α} (h : Inv T p) {e r m : Nat}
    {c : α} (s : Slots p e r m c) (i : Nat) :
    (destroyed p r m c).data[i]? =
      if i < p.direct.length - 1 then (if r = i then some c else p.data[i]?) else none := by
  have := getElem?_set_dropLast p.data r i c (h.len ▸ s.lt)
  rw [h.len] at this
  exact this

theorem Inv.of_destroyed {T : EntityType} {p : ComponentPool α} (h : Inv T p) {e r m : Nat} {c : α}
    (s : Slots p e r m c) : Inv T (destroyed p r m c) := by
  have hmr : m < p.reverse.length := (List.getElem?_eq_some.1 s.moved_slot).1
  refine ⟨?_, ?_, ?_⟩
  · simp [ComponentPool.destroyed, h.len]
  · intro i x hx
    rw [h.direct_destroyed s] at hx
    split at hx
    · rename_i hi
      show (p.reverse.set m r)[x]? = some i
      split at hx
      · rename_i hri
        simp only [Option.some.injEq] at hx
        subst hx; subst hri
        exact List.getElem?_set_self hmr
      · have hxi := h.rev i x hx
        have hne : m ≠ x := by
          rintro rfl
          rw [s.moved_slot] at hxi
          simp only [Option.some.injEq] at hxi
          omega
        rw [List.getElem?_set_ne hne]
        exact hxi
    · cases hx
  · intro x hx
    obtain ⟨i, hi⟩ := List.mem_iff_getElem?.1 hx
    rw [h.direct_destroyed s] at hi
    split at hi
    · split at hi
      · simp only [Option.some.injEq] at hi
        subst hi
        exact h.typed _ (List.mem_iff_getElem?.2 ⟨_, s.moved⟩)
      · exact h.typed _ (List.mem_iff_getElem?.2 ⟨_, hi⟩)
    · cases hi

theorem Inv.step {T : EntityType} {p q : ComponentPool α} (h : Inv T p) (c : Call α)
    (ht : c.typed T) (hq : c.run T p = .ok q) : Inv T q := by
  cases c with
  | construct e v =>
    have he : e < 2 ^ T.bits := ht
    simp only [Call.run, construct_eq] at hq
    split at hq
    · cases hq
    · rename_i hv
      split at hq
      · simp only [Except.map, Except.ok.injEq] at hq
        subst hq
        exact h.of_constructed he (by simpa using hv) v
      · cases hq
  | construct_component e v =>
    have he : e < 2 ^ T.bits := ht
    simp only [Call.run, construct_component_eq, construct_eq] at hq
    split at hq
    · cases hq
    · rename_i hv
      split at hq
      · simp only [Except.map, Except.ok.injEq] at hq
        subst hq
        exact h.of_constructed he (by simpa using hv) v
      · cases hq
  | destroy e =>
    simp only [Call.run] at hq
    by_cases hv : p.valid e = true
    · obtain ⟨r, m, c, s⟩ := h.slots hv
      rw [h.destroy_ok s] at hq
      simp only [Except.ok.injEq] at hq
      subst hq
      exact h.of_destroyed s
    · simp [ComponentPool.destroy, hv] at hq
  | reset =>
    simp only [Call.run, Except.ok.injEq] at hq
    subst hq
    exact Inv.of_reset T p

end ComponentPool

theorem Reachable.inv {α : Type} {T : EntityType} {p : ComponentPool α} (h : Reachable T p) :
    ComponentPool.Inv T p := by
  induction h with
  | create dim => exact ComponentPool.Inv.of_create T dim
  | step c _ ht hq ih => exact ih.step c ht hq

namespace ComponentPool

variable {α : Type}

/-! ## Reading and removing in a state satisfying the invariant -/

theorem Inv.get_eq {T : EntityType} {p : ComponentPool α} (h : Inv T p) {i e : Nat} {d : α}
    (hd : p.direct[i]? = some e) (hc : p.data[i]? = some d) : p.get e = .ok d := by
  have hr := h.rev i e hd
  have hv : p.valid e = true := (valid_iff p e).2 ⟨i, hr, hd⟩
  unfold get
  simp only [hv, if_true, bind, Except.bind, vec_read_of_getElem? hr, vec_read_of_getElem? hc]

theorem Inv.data_at {T : EntityType} {p : ComponentPool α} (h : Inv T p) {i e : Nat}
    (hd : p.direct[i]? = some e) : ∃ d, p.data[i]? = some d := by
  have hi : i < p.data.length := by rw [h.len]; exact (List.getElem?_eq_some.1 hd).1
  exact ⟨p.data[i], List.getElem?_eq_getElem hi⟩

theorem Inv.valid_destroyed_self {T : EntityType} {p : ComponentPool α} (h : Inv T p)
    {e r m : Nat} {c : α} (s : Slots p e r m c) : (destroyed p r m c).valid e = false := by
  rw [valid_false_iff]
  rintro ⟨i, -, hi⟩
  rw [h.direct_destroyed s] at hi
  split at hi
  · rename_i hlt
    split at hi
    · rename_i hri
      simp only [Option.some.injEq] at hi
      subst hi
      have := s.moved_slot
      rw [s.slot] at this
      simp only [Option.some.injEq] at this
      omega
    · rename_i hri
      have := h.rev i e hi
      rw [s.slot] at this
      simp only [Option.some.injEq] at this
      exact hri this
  · cases hi

/-- Where an entity other than the destroyed one ends up: slot `j` of the new
state holds what slot `i` of the old state held. -/
theorem Inv.slot_destroyed_other {T : EntityType} {p : ComponentPool α} (h : Inv T p)
    {e r m : Nat} {c : α} (s : Slots p e r m c) {i x : Nat} (hx : p.direct[i]? = some x)
    (hne : x ≠ e) :
    ∃ j : Nat, (destroyed p r m c).direct[j]? = some x ∧ (destroyed p r m c).data[j]? = p.data[i]? := by
  have hil : i < p.direct.length := (List.getElem?_eq_some.1 hx).1
  have hir : r ≠ i := by
    rintro rfl
    rw [s.owner] at hx
    simp only [Option.some.injEq] at hx
    exact hne hx.symm
  have hrl := s.lt
  by_cases hlast : i = p.direct.length - 1
  · subst hlast
    have hxm : x = m := by
      have := s.moved
      rw [hx] at this
      simpa using this
    subst hxm
    refine ⟨r, ?_, ?_⟩
    · rw [h.direct_destroyed s]
      have : r < p.direct.length - 1 := by omega
      simp [this]
    · rw [h.data_destroyed s]
      have : r < p.direct.length - 1 := by omega
      simp [this, s.component]
  · have hlt : i < p.direct.length - 1 := by omega
    refine ⟨i, ?_, ?_⟩
    · rw [h.direct_destroyed s]
      simp [hlt, hir, hx]
    · rw [h.data_destroyed s]
      simp [hlt, hir]

end ComponentPool

theorem reachable_of_run_calls {α : Type} {T : EntityType} :
    ∀ (calls : List (Call α)) {p q : ComponentPool α}, Reachable T p →
      (∀ c ∈ calls, c.typed T) → run_calls T p calls = .ok q → Reachable T q
  | [], p, q, hp, _, hq => by
    simp only [run_calls, Except.ok.injEq] at hq
    exact hq ▸ hp
  | c :: cs, p, q, hp, ht, hq => by
    simp only [run_calls] at hq
    split at hq
    · rename_i p' hp'
      exact reachable_of_run_calls cs (Reachable.step c hp (ht c (List.mem_cons_self _ _)) hp')
        (fun c' hc' => ht c' (List.mem_cons_of_mem _ hc')) hq
    · cases hq

theorem reachable_scenario : Reachable uint32 scenario :=
  reachable_of_run_calls scenario_calls (Reachable.create 4098) (by decide) (by decide)

namespace ComponentPool

variable {α : Type}

/-! ## Membership after `construct` and `destroy` -/

theorem Inv.has_iff_mem {T : EntityType} {p : ComponentPool α} (h : Inv T p) (e : Nat) :
    p.has e = true ↔ e ∈ p.entities := h.valid_iff_mem e

theorem Inv.mem_destroyed {T : EntityType} {p : ComponentPool α} (h : Inv T p)
    {e r m : Nat} {c : α} (s : Slots p e r m c) (x : Nat) :
    x ∈ (destroyed p r m c).direct ↔ x ∈ p.direct ∧ x ≠ e := by
  constructor
  · intro hx
    have hne : x ≠ e := by
      rintro rfl
      have := ((h.of_destroyed s).valid_iff_mem x).2 hx
      rw [h.valid_destroyed_self s] at this
      cases this
    refine ⟨?_, hne⟩
    obtain ⟨i, hi⟩ := List.mem_iff_getElem?.1 hx
    rw [h.direct_destroyed s] at hi
    split at hi
    · split at hi
      · simp only [Option.some.injEq] at hi
        subst hi
        exact List.mem_iff_getElem?.2 ⟨_, s.moved⟩
      · exact List.mem_iff_getElem?.2 ⟨_, hi⟩
    · cases hi
  · rintro ⟨hx, hne⟩
    obtain ⟨i, hi⟩ := List.mem_iff_getElem?.1 hx
    obtain ⟨j, hj, -⟩ := h.slot_destroyed_other s hi hne
    exact List.mem_iff_getElem?.2 ⟨j, hj⟩

theorem Inv.card_present {T : EntityType} {p : ComponentPool α} (h : Inv T p) :
    Set.ncard {e : Nat | p.has e = true} = p.size := by
  have hset : {e : Nat | p.has e = true} = ↑p.direct.toFinset := by
    ext e
    simp only [Set.mem_setOf_eq, Finset.mem_coe, List.mem_toFinset]
    exact h.valid_iff_mem e
  rw [hset, Set.ncard_coe_Finset, List.toFinset_card_of_nodup h.nodup]
  exact h.len.symm

/-- The shape of the state after a call that did not fault. -/
theorem Inv.run_ok {T : EntityType} {p q : ComponentPool α} (h : Inv T p) (c : Call α)
    (hq : c.run T p = .ok q) :
    match c with
    | .construct e v => p.valid e = false ∧ Fits T p e ∧ q = constructed T p e v
    | .construct_component e v => p.valid e = false ∧ Fits T p e ∧ q = constructed T p e v
    | .destroy e => ∃ r m d, Slots p e r m d ∧ q = destroyed p r m d
    | .reset => q = p.reset := by
  cases c with
  | construct e v =>
    simp only [Call.run, construct_eq] at hq
    split at hq
    · cases hq
    · rename_i hv
      split at hq
      · rename_i hf
        simp only [Except.map, Except.ok.injEq] at hq
        exact ⟨by simpa using hv, hf, hq.symm⟩
      · cases hq
  | construct_component e v =>
    simp only [Call.run, construct_component_eq, construct_eq] at hq
    split at hq
    · cases hq
    · rename_i hv
      split at hq
      · rename_i hf
        simp only [Except.map, Except.ok.injEq] at hq
        exact ⟨by simpa using hv, hf, hq.symm⟩
      · cases hq
  | destroy e =>
    simp only [Call.run] at hq
    by_cases hv : p.valid e = true
    · obtain ⟨r, m, c, s⟩ := h.slots hv
      rw [h.destroy_ok s] at hq
      simp only [Except.ok.injEq] at hq
      exact ⟨r, m, c, s, hq.symm⟩
    · simp [ComponentPool.destroy, hv] at hq
  | reset =>
    simp only [Call.run, Except.ok.injEq] at hq
    exact hq.symm

theorem Inv.track_step {T : EntityType} {p q : ComponentPool α} (h : Inv T p) (c : Call α)
    (hq : c.run T p = .ok q) (s : Finset Nat) (hs : ∀ x, p.has x = true ↔ x ∈ s) (ht : c.typed T) :
    ∀ x, q.has x = true ↔ x ∈ c.track s := by
  intro x
  have hq' := h.step c ht hq
  have hr := h.run_ok c hq
  rw [hq'.has_iff_mem]
  cases c with
  | construct e v =>
    obtain ⟨-, -, rfl⟩ := hr
    simp only [Call.track, Finset.mem_insert, ← hs x, h.has_iff_mem]
    simp only [entities, constructed, List.mem_append, List.mem_singleton]
    tauto
  | construct_component e v =>
    obtain ⟨-, -, rfl⟩ := hr
    simp only [Call.track, Finset.mem_insert, ← hs x, h.has_iff_mem]
    simp only [entities, constructed, List.mem_append, List.mem_singleton]
    tauto
  | destroy e =>
    obtain ⟨r, m, d, sl, rfl⟩ := hr
    simp only [Call.track, Finset.mem_erase, ← hs x, h.has_iff_mem]
    simp only [entities]
    rw [h.mem_destroyed sl]
    tauto
  | reset =>
    have hr : q = p.reset := hr
    subst hr
    simp [Call.track, entities, ComponentPool.reset]

theorem Inv.track_calls {T : EntityType} :
    ∀ (calls : List (Call α)) {p q : ComponentPool α}, Inv T p → (∀ c ∈ calls, c.typed T) →
      run_calls T p calls = .ok q → ∀ s : Finset Nat, (∀ x, p.has x = true ↔ x ∈ s) →
      ∀ x, q.has x = true ↔ x ∈ calls.foldl Call.track s
  | [], p, q, _, _, hq, s, hs => by
    simp only [run_calls, Except.ok.injEq] at hq
    subst hq
    simpa using hs
  | c :: cs, p, q, h, ht, hq, s, hs => by
    simp only [run_calls] at hq
    split at hq
    · rename_i p' hp'
      have htc := ht c (List.mem_cons_self _ _)
      exact Inv.track_calls cs (h.step c htc hp') (fun c' hc' => ht c' (List.mem_cons_of_mem _ hc'))
        hq (c.track s) (h.track_step c hp' s hs htc)
    · cases hq

end ComponentPool

/-! ## `construct`: the growth step -/

theorem fits_iff {α : Type} (T : EntityType) (p : ComponentPool α) (e : Nat) :
    Fits T p e ↔ e < p.reverse.length ∨ T.wide = false ∨ e + 1 < 2 ^ T.bits := by
  unfold Fits EntityType.succ
  cases hw : T.wide
  · simp
  · simp only [if_true, Bool.true_eq_false, false_or]
    constructor
    · rintro (h | h)
      · exact Or.inl h
      · right
        by_contra hlt
        have hpos : 0 < 2 ^ T.bits := Nat.pow_pos (by decide)
        have := Nat.mod_lt (e + 1) hpos
        omega
    · rintro (h | h)
      · exact Or.inl h
      · exact Or.inr (Nat.mod_eq_of_lt h)

/-- In a reachable state `construct` of an absent entity that the growth step
reaches stores the component: the call returns, `get` and the returned
reference give the value, the entity is present, and entity and component are
appended. -/
theorem construct_of_fits {α : Type} (T : EntityType) (p : ComponentPool α) (e : Nat) (v : α)
    (hp : Reachable T p) (he : e < 2 ^ T.bits) (hv : p.has e = false) (hf : Fits T p e) :
    ∃ q ref, p.construct T e v = .ok (q, ref) ∧ q.get e = .ok v ∧ q.deref ref = .ok v ∧
      q.has e = true ∧ q.entities = p.entities ++ [e] ∧ q.data = p.data ++ [v] ∧
      q.reverse[e]? = some p.size ∧ q.size = p.size + 1 := by
  have h := hp.inv
  have hv' : p.valid e = false := hv
  have hq := h.of_constructed he hv' v
  have hd : (constructed T p e v).direct[p.direct.length]? = some e := by
    simp [constructed]
  have hc : (constructed T p e v).data[p.direct.length]? = some v := by
    simp [constructed, h.len]
  refine ⟨constructed T p e v, p.data.length, ?_, hq.get_eq hd hc, ?_, ?_, rfl, rfl, ?_, ?_⟩
  · rw [construct_eq]; simp [hv', hf]
  · rw [h.len]; exact vec_read_of_getElem? hc
  · exact (hq.valid_iff_mem e).2 (List.mem_iff_getElem?.2 ⟨_, hd⟩)
  · have := hq.rev _ _ hd
    rw [this, size, h.len]
  · simp [size, constructed]

/-- When the growth step does not reach the entity, `construct` of an absent
entity writes outside `reverse`. -/
theorem construct_of_not_fits {α : Type} (T : EntityType) (p : ComponentPool α) (e : Nat) (v : α)
    (hv : p.has e = false) (hf : ¬ Fits T p e) :
    p.construct T e v = .error .outOfBounds := by
  have hv' : p.valid e = false := hv
  rw [construct_eq]; simp [hv', hf]

/-- In a reachable state a call returns without fault exactly when it honours
its precondition and, for `construct`, the growth step does not wrap around. -/
theorem run_ok_iff_honoured {α : Type} (T : EntityType) (p : ComponentPool α) (c : Call α)
    (hp : Reachable T p) : (∃ q, c.run T p = .ok q) ↔ c.honoured p ∧ c.fits T p := by
  have h := hp.inv
  constructor
  · rintro ⟨q, hq⟩
    have hr := h.run_ok c hq
    cases c with
    | construct e v => exact ⟨hr.1, hr.2.1⟩
    | construct_component e v => exact ⟨hr.1, hr.2.1⟩
    | destroy e =>
      obtain ⟨r, m, d, s, -⟩ := hr
      exact ⟨(valid_iff p e).2 ⟨r, s.slot, s.owner⟩, trivial⟩
    | reset => exact ⟨trivial, trivial⟩
  · rintro ⟨hh, hf⟩
    cases c with
    | construct e v =>
      have hv : p.valid e = false := hh
      have hf' : Fits T p e := hf
      exact ⟨constructed T p e v, by simp [Call.run, construct_eq, hv, hf', Except.map]⟩
    | construct_component e v =>
      have hv : p.valid e = false := hh
      have hf' : Fits T p e := hf
      exact ⟨constructed T p e v, by
        simp [Call.run, construct_component_eq, construct_eq, hv, hf', Except.map]⟩
    | destroy e =>
      obtain ⟨r, m, d, s⟩ := h.slots hh
      exact ⟨_, h.destroy_ok s⟩
    | reset => exact ⟨_, rfl⟩

/-! ## The claims -/

/-- C1 (round trip), evaluated at the largest `std::uint32_t` entity on a fresh
pool: the entity is absent, yet `construct` followed by `get` does not return the
value.  `entity + 1` wraps to zero, `reverse` is resized to length zero, and the
write `reverse[entity]` falls outside the vector; both overloads behave so. -/
theorem round_trip_at_largest_entity :
    Reachable uint32 (create : ComponentPool Nat) ∧
    4294967295 < 2 ^ uint32.bits ∧
    (create : ComponentPool Nat).has 4294967295 = false ∧
    ((create : ComponentPool Nat).construct uint32 4294967295 30 >>= fun r => r.1.get 4294967295)
      = .error .outOfBounds ∧
    ((create : ComponentPool Nat).construct_component uint32 4294967295 30 >>=
      fun r => r.1.get 4294967295) = .error .outOfBounds :=
  ⟨Reachable.create 4098, by decide, by decide, by decide, by decide⟩

/-- C2 (presence after insert), evaluated at the largest `std::uint32_t` entity
in the scenario pool holding entities 3, 7 and 1: the entity is absent, and
`construct` faults with an out-of-bounds write instead of making it present. -/
theorem presence_at_largest_entity :
    Reachable uint32 scenario ∧
    4294967295 < 2 ^ uint32.bits ∧
    scenario.has 4294967295 = false ∧
    (scenario.construct uint32 4294967295 40).map (fun r => r.1.has 4294967295)
      = .error .outOfBounds :=
  ⟨reachable_scenario, by decide, by decide, by decide⟩

/-- C3 (absence after removal): in every reachable state, destroying a present
entity returns, and afterwards `has` is false for that entity, whichever slot it
occupied. -/
theorem destroy_then_absent {α : Type} (T : EntityType) (p : ComponentPool α) (e : Nat)
    (hp : Reachable T p) (he : p.has e = true) :
    ∃ q, p.destroy e = .ok q ∧ q.has e = false := by
  have h := hp.inv
  obtain ⟨r, m, c, s⟩ := h.slots he
  exact ⟨destroyed p r m c, h.destroy_ok s, h.valid_destroyed_self s⟩

/-- Witness of C3 in the scenario pool: entity 7 sits in an interior slot. -/
theorem destroy_then_absent_witness :
    Reachable uint32 scenario ∧ scenario.has 7 = true ∧
      ∃ q, scenario.destroy 7 = .ok q ∧ q.has 7 = false :=
  ⟨reachable_scenario, by decide, destroy_then_absent uint32 scenario 7 reachable_scenario (by decide)⟩

/-- C4 (invariant preservation under removal): in every reachable state, after
destroying a present entity `e`, every other present entity `e'` is still
present and `get e'` returns the value it returned before, also when `e'` was
moved out of the last slot. -/
theorem destroy_preserves_others {α : Type} (T : EntityType) (p : ComponentPool α) (e e' : Nat)
    (hp : Reachable T p) (he : p.has e = true) (hne : e' ≠ e) (he' : p.has e' = true) :
    ∃ q d, p.destroy e = .ok q ∧ q.has e' = true ∧ p.get e' = .ok d ∧ q.get e' = .ok d := by
  have h := hp.inv
  obtain ⟨r, m, c, s⟩ := h.slots he
  have hq := h.of_destroyed s
  obtain ⟨i, hi⟩ := List.mem_iff_getElem?.1 ((h.valid_iff_mem e').1 he')
  obtain ⟨d, hd⟩ := h.data_at hi
  obtain ⟨j, hj, hjd⟩ := h.slot_destroyed_other s hi hne
  refine ⟨destroyed p r m c, d, h.destroy_ok s, ?_, h.get_eq hi hd, hq.get_eq hj (hjd.trans hd)⟩
  exact (hq.valid_iff_mem e').2 (List.mem_iff_getElem?.2 ⟨j, hj⟩)

/-- Witness of C4 in the scenario pool: destroying 7 moves entity 1 out of the
last slot. -/
theorem destroy_preserves_others_witness :
    Reachable uint32 scenario ∧ scenario.has 7 = true ∧ (1 : Nat) ≠ 7 ∧ scenario.has 1 = true ∧
      ∃ q d, scenario.destroy 7 = .ok q ∧ q.has 1 = true ∧ scenario.get 1 = .ok d ∧
        q.get 1 = .ok d :=
  ⟨reachable_scenario, by decide, by decide, by decide,
    destroy_preserves_others uint32 scenario 7 1 reachable_scenario (by decide) (by decide)
      (by decide)⟩

/-- Size correctness of the runs that do not fault: after every sequence of
calls on a fresh pool that returns, `size` is the number of entities for which
`has` is true, these are the entities constructed and not yet destroyed, and
`empty` is true exactly when that number is zero. -/
theorem size_eq_card_present {α : Type} (T : EntityType) (calls : List (Call α))
    (p : ComponentPool α) (ht : ∀ c ∈ calls, c.typed T)
    (hq : run_calls T (create : ComponentPool α) calls = .ok p) :
    p.size = Set.ncard {e : Nat | p.has e = true} ∧
      (∀ e, p.has e = true ↔ e ∈ present_after calls) ∧
      p.size = (present_after calls).card ∧
      (p.empty = true ↔ Set.ncard {e : Nat | p.has e = true} = 0) := by
  have hp : Reachable T p := reachable_of_run_calls calls (Reachable.create 4098) ht hq
  have h := hp.inv
  have htr : ∀ e, p.has e = true ↔ e ∈ present_after calls :=
    Inv.track_calls calls (Inv.of_create T 4098) ht hq ∅ (by intro x; simp [has, valid, create])
  have hset : {e : Nat | p.has e = true} = ↑(present_after calls) := by
    ext e
    simpa using htr e
  refine ⟨h.card_present.symm, htr, ?_, ?_⟩
  · rw [← h.card_present, hset, Set.ncard_coe_Finset]
  · rw [h.card_present]
    simp [empty, size, List.isEmpty_iff]

/-- An instance of `size_eq_card_present`: the scenario calls followed by
`destroy(7)`. -/
theorem size_eq_card_present_witness :
    (∀ c ∈ scenario_calls ++ [Call.destroy 7], c.typed uint32) ∧
      run_calls uint32 (create : ComponentPool Nat) (scenario_calls ++ [Call.destroy 7]) =
        .ok ⟨[30, 10], [0, 1, 0, 0, 0, 0, 0, 1], [3, 1]⟩ ∧
      (⟨[30, 10], [0, 1, 0, 0, 0, 0, 0, 1], [3, 1]⟩ : ComponentPool Nat).size = 2 ∧
      (⟨[30, 10], [0, 1, 0, 0, 0, 0, 0, 1], [3, 1]⟩ : ComponentPool Nat).size =
        (present_after (scenario_calls ++ [Call.destroy 7])).card :=
  ⟨by decide, by decide, by decide,
    (size_eq_card_present uint32 (scenario_calls ++ [Call.destroy 7]) _ (by decide)
      (by decide)).2.2.1⟩

/-- C5 (size correctness), evaluated at sequences of calls that construct the
largest `std::uint32_t` entity: every call is made on an entity of the type and
honours its precondition (the entity is absent when it is constructed), yet the
run faults with the out-of-bounds write of `construct` and leaves no state
whose `size` could equal the number of present entities, although the
specification's bookkeeping counts one, respectively four, present entities. -/
theorem size_at_largest_entity :
    (∀ c ∈ [Call.construct 4294967295 30], c.typed uint32) ∧
    Call.honoured (create : ComponentPool Nat) (Call.construct 4294967295 30) ∧
    run_calls uint32 (create : ComponentPool Nat) [Call.construct 4294967295 30] =
      .error .outOfBounds ∧
    (run_calls uint32 (create : ComponentPool Nat) [Call.construct 4294967295 30]).map size =
      .error .outOfBounds ∧
    (present_after [Call.construct 4294967295 (30 : Nat)]).card = 1 ∧
    (∀ c ∈ scenario_calls ++ [Call.construct 4294967295 40], c.typed uint32) ∧
    run_calls uint32 (create : ComponentPool Nat) scenario_calls = .ok scenario ∧
    Call.honoured scenario (Call.construct 4294967295 40) ∧
    (run_calls uint32 (create : ComponentPool Nat)
      (scenario_calls ++ [Call.construct 4294967295 40])).map size = .error .outOfBounds ∧
    (present_after (scenario_calls ++ [Call.construct 4294967295 40])).card = 4 :=
  ⟨by decide, (by decide : (create : ComponentPool Nat).has 4294967295 = false), by decide,
    by decide, by decide, by decide, by decide,
    (by decide : scenario.has 4294967295 = false), by decide, by decide⟩

/-- C6 (parallel arrays): in every reachable state the component array and the
entity array have the same length, and for every slot `i < size` the entity
`direct[i]` is present, `reverse[direct[i]]` is `i`, and `get (direct[i])` is
the component stored in slot `i`. -/
theorem parallel_arrays {α : Type} (T : EntityType) (p : ComponentPool α) (hp : Reachable T p) :
    p.data.length = p.direct.length ∧
      ∀ i, i < p.size → ∃ e d, p.direct[i]? = some e ∧ p.data[i]? = some d ∧
        p.has e = true ∧ p.reverse[e]? = some i ∧ p.get e = .ok d := by
  have h := hp.inv
  refine ⟨h.len, ?_⟩
  intro i hi
  have hid : i < p.direct.length := by rw [← h.len]; exact hi
  have hd := List.getElem?_eq_getElem hid
  have hc : p.data[i]? = some p.data[i] := List.getElem?_eq_getElem hi
  exact ⟨p.direct[i], p.data[i], hd, hc,
    (h.valid_iff_mem _).2 (List.mem_iff_getElem?.2 ⟨i, hd⟩), h.rev _ _ hd, h.get_eq hd hc⟩

/-- Witness of C6 in the scenario pool. -/
theorem parallel_arrays_witness :
    Reachable uint32 scenario ∧ scenario.data.length = scenario.direct.length ∧
      ∀ i, i < scenario.size → ∃ e d, scenario.direct[i]? = some e ∧ scenario.data[i]? = some d ∧
        scenario.has e = true ∧ scenario.reverse[e]? = some i ∧ scenario.get e = .ok d :=
  ⟨reachable_scenario, parallel_arrays uint32 scenario reachable_scenario⟩

/-- C7 (reset completeness): after `reset`, from any state, the three arrays
have length zero, `size` is zero, `empty` is true and `has` is false for every
entity. -/
theorem reset_complete {α : Type} (p : ComponentPool α) :
    p.reset.data.length = 0 ∧ p.reset.direct.length = 0 ∧ p.reset.reverse.length = 0 ∧
      p.reset.size = 0 ∧ p.reset.empty = true ∧ ∀ e, p.reset.has e = false := by
  refine ⟨rfl, rfl, length_resize _ _, rfl, rfl, ?_⟩
  intro e
  have hl : p.reset.reverse.length = 0 := length_resize _ _
  simp [has, valid, hl]

/-- C8 (assertions): in every reachable state, `get` and `destroy` fail their
assertion exactly when the entity is absent (and return when it is present),
and both overloads of `construct` fail their assertion exactly when the entity
is present. -/
theorem assertion_iff_precondition {α : Type} (T : EntityType) (p : ComponentPool α) (e : Nat)
    (hp : Reachable T p) :
    (p.get e = .error .assertion ↔ p.has e = false) ∧
      (p.destroy e = .error .assertion ↔ p.has e = false) ∧
      (∀ v, p.construct T e v = .error .assertion ↔ p.has e = true) ∧
      (∀ v, p.construct_component T e v = .error .assertion ↔ p.has e = true) ∧
      (p.has e = true → (∃ d, p.get e = .ok d) ∧ ∃ q, p.destroy e = .ok q) := by
  have h := hp.inv
  have hok : p.has e = true → (∃ d, p.get e = .ok d) ∧ ∃ q, p.destroy e = .ok q := by
    intro he
    obtain ⟨r, m, c, s⟩ := h.slots he
    obtain ⟨d, hd⟩ := h.data_at s.owner
    exact ⟨⟨d, h.get_eq s.owner hd⟩, ⟨_, h.destroy_ok s⟩⟩
  have hcons : ∀ v, p.construct T e v = .error .assertion ↔ p.has e = true := by
    intro v
    rw [construct_eq]
    show _ ↔ p.valid e = true
    by_cases hv : p.valid e = true
    · simp [hv]
    · by_cases hf : Fits T p e <;> simp [hv, hf]
  refine ⟨?_, ?_, hcons, hcons, hok⟩
  · by_cases he : p.has e = true
    · obtain ⟨⟨d, hd⟩, -⟩ := hok he
      simp [hd, he]
    · have hv : p.valid e = false := by simpa [has] using he
      simp [ComponentPool.get, ComponentPool.has, hv]
  · by_cases he : p.has e = true
    · obtain ⟨-, ⟨q, hq⟩⟩ := hok he
      simp [hq, he]
    · have hv : p.valid e = false := by simpa [has] using he
      simp [ComponentPool.destroy, ComponentPool.has, hv]

/-- Witness of C8 in the scenario pool, at the present entity 7. -/
theorem assertion_iff_precondition_witness :
    Reachable uint32 scenario ∧ scenario.get 7 = .ok 70 ∧ scenario.get 5 = .error .assertion ∧
      scenario.construct uint32 7 0 = .error .assertion ∧
      ((scenario.get 7 = .error .assertion ↔ scenario.has 7 = false) ∧
      (scenario.destroy 7 = .error .assertion ↔ scenario.has 7 = false) ∧
      (∀ v, scenario.construct uint32 7 v = .error .assertion ↔ scenario.has 7 = true) ∧
      (∀ v, scenario.construct_component uint32 7 v = .error .assertion ↔ scenario.has 7 = true) ∧
      (scenario.has 7 = true → (∃ d, scenario.get 7 = .ok d) ∧ ∃ q, scenario.destroy 7 = .ok q)) :=
  ⟨reachable_scenario, by decide, by decide, by decide,
    assertion_iff_precondition uint32 scenario 7 reachable_scenario⟩

/-- C9 (swap-remove effect): in every reachable state, destroying a present
entity stored at slot `r` returns a state whose entity sequence is the previous
one with slot `r` overwritten by the previous last entity and the last slot
dropped; the component array changes the same way and `size` drops by one. -/
theorem swap_remove_effect {α : Type} (T : EntityType) (p : ComponentPool α) (e : Nat)
    (hp : Reachable T p) (he : p.has e = true) :
    ∃ r m c q, p.reverse[e]? = some r ∧ p.entities[p.size - 1]? = some m ∧
      p.data[p.size - 1]? = some c ∧ p.destroy e = .ok q ∧
      q.entities = (p.entities.set r m).dropLast ∧ q.data = (p.data.set r c).dropLast ∧
      q.size + 1 = p.size := by
  have h := hp.inv
  obtain ⟨r, m, c, s⟩ := h.slots he
  have hsz : p.size = p.direct.length := h.len
  have hpos := s.lt
  refine ⟨r, m, c, destroyed p r m c, s.slot, ?_, ?_, h.destroy_ok s, rfl, rfl, ?_⟩
  · rw [hsz]; exact s.moved
  · rw [hsz]; exact s.component
  · simp only [size, destroyed, List.length_dropLast, List.length_set]
    rw [h.len]; omega

/-- Witness of C9, the scenario of the specification: from entities `[3, 7, 1]`
with values `[30, 70, 10]`, `destroy(7)` gives entities `[3, 1]` and size 2, then
`destroy(3)` gives entities `[1]` with `get(1) == 10`. -/
theorem swap_remove_effect_witness :
    Reachable uint32 scenario ∧ scenario.has 7 = true ∧
      scenario.entities = [3, 7, 1] ∧ scenario.data = [30, 70, 10] ∧
      (scenario.destroy 7).map (fun q => (q.entities, q.size)) = .ok ([3, 1], 2) ∧
      ((scenario.destroy 7 >>= fun q => q.destroy 3).map fun q => (q.entities, q.get 1)) =
        .ok ([1], .ok 10) ∧
      ∃ r m c q, scenario.reverse[7]? = some r ∧ scenario.entities[scenario.size - 1]? = some m ∧
        scenario.data[scenario.size - 1]? = some c ∧ scenario.destroy 7 = .ok q ∧
        q.entities = (scenario.entities.set r m).dropLast ∧
        q.data = (scenario.data.set r c).dropLast ∧ q.size + 1 = scenario.size :=
  ⟨reachable_scenario, by decide, by decide, by decide, by decide, by decide,
    swap_remove_effect uint32 scenario 7 reachable_scenario (by decide)⟩

/-- C10 (insertion order), evaluated at the largest `std::uint32_t` entity in
the scenario pool: `construct(3, 30)`, `construct(7, 70)`, `construct(1, 10)` on
a fresh pool give entities `[3, 7, 1]` and size 3, but constructing the absent
entity 4294967295 next appends nothing: the call faults with an out-of-bounds
write to `reverse`. -/
theorem insertion_order_at_largest_entity :
    run_calls uint32 (create : ComponentPool Nat) scenario_calls = .ok scenario ∧
    scenario.entities = [3, 7, 1] ∧ scenario.size = 3 ∧
    4294967295 < 2 ^ uint32.bits ∧
    scenario.has 4294967295 = false ∧
    (scenario.construct uint32 4294967295 40).map (fun r => (r.1.entities, r.1.data, r.1.size))
      = .error .outOfBounds ∧
    (scenario.construct_component uint32 4294967295 40).map
      (fun r => (r.1.entities, r.1.data, r.1.size)) = .error .outOfBounds :=
  ⟨by decide, by decide, by decide, by decide, by decide, by decide, by decide⟩

/-- C11 (`has` never fails): in every state of the three arrays, reachable or
not, `has` with checked accesses returns without an out-of-bounds access, its
result is the boolean `has`, which is true exactly when the core invariant
holds for the entity (so false for an absent entity), and the pool it hands
back is the pool it was given. -/
theorem has_never_fails {α : Type} (p : ComponentPool α) (e : Nat) :
    p.has_checked e = .ok (p.has e, p) ∧
      (p.has e = true ↔
        ∃ r, p.reverse[e]? = some r ∧ p.direct[r]? = some e) ∧
      (p.has e = false ↔
        ¬ (e < p.reverse.length ∧ ∃ r, p.reverse[e]? = some r ∧ r < p.direct.length ∧
          p.direct[r]? = some e)) := by
  refine ⟨?_, valid_iff p e, ?_⟩
  · unfold has_checked valid_checked has valid
    by_cases h₁ : e < p.reverse.length
    · simp only [h₁, if_true, dite_true, bind, Except.bind, vec_read]
      by_cases h₂ : p.reverse[e] < p.direct.length
      · simp [h₂]
      · simp [h₂]
    · simp [h₁]
  · show p.valid e = false ↔ _
    rw [valid_false_iff]
    constructor
    · rintro h ⟨-, r, hr, -, hd⟩
      exact h ⟨r, hr, hd⟩
    · rintro h ⟨r, hr, hd⟩
      exact h ⟨(List.getElem?_eq_some.1 hr).1, r, hr, (List.getElem?_eq_some.1 hd).1, hd⟩

/-! ## The length of `reverse` -/

theorem vec_write_length {β : Type} {xs ys : List β} {i : Nat} {x : β}
    (h : vec_write xs i x = .ok ys) : ys.length = xs.length := by
  unfold vec_write at h
  split at h
  · simp only [Except.ok.injEq] at h
    rw [← h, List.length_set]
  · cases h

theorem destroy_reverse_length {α : Type} {p q : ComponentPool α} {e : Nat}
    (h : p.destroy e = .ok q) : q.reverse.length = p.reverse.length := by
  unfold destroy at h
  split at h
  · simp only [bind, Except.bind] at h
    repeat' split at h
    all_goals try cases h
    simp only
    apply vec_write_length
    assumption
  · cases h

theorem run_reverse_length {α : Type} {T : EntityType} {p q : ComponentPool α} (c : Call α)
    (hq : c.run T p = .ok q) :
    match c with
    | .construct e _ => q.reverse.length = max p.reverse.length (e + 1)
    | .construct_component e _ => q.reverse.length = max p.reverse.length (e + 1)
    | .destroy _ => q.reverse.length = p.reverse.length
    | .reset => q.reverse.length = 0 := by
  cases c with
  | construct e v =>
    simp only [Call.run, construct_eq] at hq
    split at hq
    · cases hq
    · split at hq
      · simp only [Except.map, Except.ok.injEq] at hq
        subst hq
        simp [constructed, length_grow]
      · cases hq
  | construct_component e v =>
    simp only [Call.run, construct_component_eq, construct_eq] at hq
    split at hq
    · cases hq
    · split at hq
      · simp only [Except.map, Except.ok.injEq] at hq
        subst hq
        simp [constructed, length_grow]
      · cases hq
  | destroy e => exact destroy_reverse_length hq
  | reset =>
    simp only [Call.run, Except.ok.injEq] at hq
    subst hq
    exact length_resize _ _

/-- C12 as stated fails for `reset`: the scenario pool, a reachable state, has a
`reverse` of length 8, and after `reset` the length is 0. -/
theorem reverse_shrinks_on_reset :
    Reachable uint32 scenario ∧ scenario.reverse.length = 8 ∧
      Call.run uint32 scenario Call.reset = .ok scenario.reset ∧
      scenario.reset.reverse.length = 0 ∧
      ¬ scenario.reverse.length ≤ scenario.reset.reverse.length :=
  ⟨reachable_scenario, by decide, by decide, by decide, by decide⟩

/-- C12, amended: in every state, a `construct` or `destroy` call that returns
leaves `reverse` at least as long as it was (`destroy` keeps the length,
`construct` of entity `e` makes it the larger of the old length and `e + 1`),
and `reset` makes the length zero. -/
theorem reverse_length_after_call {α : Type} (T : EntityType) (p q : ComponentPool α)
    (c : Call α) (hq : c.run T p = .ok q) :
    (c ≠ .reset → p.reverse.length ≤ q.reverse.length) ∧
      (c = .reset → q.reverse.length = 0) ∧
      (∀ e, c = .destroy e → q.reverse.length = p.reverse.length) ∧
      (∀ e v, c = .construct e v ∨ c = .construct_component e v →
        q.reverse.length = max p.reverse.length (e + 1)) := by
  have h := run_reverse_length c hq
  cases c with
  | construct e v =>
    have h : q.reverse.length = max p.reverse.length (e + 1) := h
    refine ⟨fun _ => by omega, by simp, by simp, ?_⟩
    rintro e' v' (h' | h')
    · cases h'; exact h
    · cases h'
  | construct_component e v =>
    have h : q.reverse.length = max p.reverse.length (e + 1) := h
    refine ⟨fun _ => by omega, by simp, by simp, ?_⟩
    rintro e' v' (h' | h')
    · cases h'
    · cases h'; exact h
  | destroy e =>
    have h : q.reverse.length = p.reverse.length := h
    exact ⟨fun _ => by omega, by simp, fun _ _ => h, by simp⟩
  | reset =>
    have h : q.reverse.length = 0 := h
    exact ⟨fun hne => absurd rfl hne, fun _ => h, by simp, by simp⟩

/-- Witness of the amended C12: `destroy(7)` in the scenario pool. -/
theorem reverse_length_after_call_witness :
    Call.run uint32 scenario (Call.destroy 7) = .ok scenario_destroyed ∧
      (((Call.destroy 7 : Call Nat) ≠ .reset →
        scenario.reverse.length ≤ scenario_destroyed.reverse.length) ∧
      ((Call.destroy 7 : Call Nat) = .reset → scenario_destroyed.reverse.length = 0) ∧
      (∀ e, (Call.destroy 7 : Call Nat) = .destroy e →
        scenario_destroyed.reverse.length = scenario.reverse.length) ∧
      (∀ e v, (Call.destroy 7 : Call Nat) = .construct e v ∨
          (Call.destroy 7 : Call Nat) = .construct_component e v →
        scenario_destroyed.reverse.length = max scenario.reverse.length (e + 1))) :=
  ⟨by decide,
    reverse_length_after_call uint32 scenario scenario_destroyed (Call.destroy 7) (by decide)⟩

/-- C13 as stated fails after the last entity was destroyed: `construct(3, 30)`
followed by `destroy(3)` leaves an empty pool whose `reverse` still has four
entries, and `reset` changes that state. -/
theorem reset_changes_emptied_pool :
    run_calls uint32 (create : ComponentPool Nat) [.construct 3 30, .destroy 3] = .ok emptied ∧
      emptied.size = 0 ∧ emptied.reverse = [0, 0, 0, 0] ∧ emptied.reset.reverse = [] ∧
      emptied.reset ≠ emptied :=
  ⟨by decide, by decide, by decide, by decide, by decide⟩

/-- C13, amended: in every reachable state with `size() == 0`, `reset` leaves the
(empty) component and entity arrays as they were and changes no observation
(`size`, `empty`, `entities`, `has`, `get`); it clears `reverse`, so the state
is the same as before exactly when `reverse` was already empty, as it is in a
fresh pool and in a pool that was just reset. -/
theorem reset_of_empty {α : Type} (T : EntityType) (p : ComponentPool α)
    (hp : Reachable T p) (hs : p.size = 0) :
    p.reset.data = p.data ∧ p.reset.direct = p.direct ∧ p.reset.size = p.size ∧
      p.reset.empty = p.empty ∧ p.reset.entities = p.entities ∧
      (∀ e, p.reset.has e = p.has e) ∧ (∀ e, p.reset.get e = p.get e) ∧
      (p.reset = p ↔ p.reverse.length = 0) ∧
      (∀ dim, (create dim : ComponentPool α).reset = create dim) ∧
      p.reset.reset = p.reset := by
  have h := hp.inv
  have hdata : p.data = [] := List.length_eq_zero.1 hs
  have hdirect : p.direct = [] := List.length_eq_zero.1 (by rw [← h.len]; exact hs)
  have hvalid : ∀ e, p.valid e = false := by
    intro e
    rw [valid_false_iff]
    rintro ⟨r, -, hd⟩
    rw [hdirect] at hd
    simp at hd
  have hrev : p.reset.reverse = [] := List.length_eq_zero.1 (length_resize _ _)
  have hrvalid : ∀ e, p.reset.valid e = false := by
    intro e
    rw [valid_false_iff]
    rintro ⟨r, hr, -⟩
    rw [hrev] at hr
    simp at hr
  refine ⟨hdata.symm, hdirect.symm, ?_, ?_, hdirect.symm, ?_, ?_, ?_, ?_, ?_⟩
  · simp [size, ComponentPool.reset, hdata]
  · simp [empty, ComponentPool.reset, hdata]
  · intro e
    show p.reset.valid e = p.valid e
    rw [hvalid, hrvalid]
  · intro e
    simp [ComponentPool.get, hvalid, hrvalid]
  · constructor
    · intro heq
      rw [← heq, hrev]
      rfl
    · intro hl
      have hr : p.reverse = [] := List.length_eq_zero.1 hl
      cases p
      simp only at hdata hdirect hr
      subst hdata hdirect hr
      rfl
  · intro dim
    rfl
  · simp [ComponentPool.reset, resize]

theorem reachable_emptied : Reachable uint32 emptied :=
  reachable_of_run_calls [.construct 3 30, .destroy 3] (Reachable.create 4098) (by decide)
    (by decide)

/-- Witness of the amended C13 in the pool emptied by `destroy`. -/
theorem reset_of_empty_witness :
    Reachable uint32 emptied ∧ emptied.size = 0 ∧
      (emptied.reset.data = emptied.data ∧ emptied.reset.direct = emptied.direct ∧
      emptied.reset.size = emptied.size ∧ emptied.reset.empty = emptied.empty ∧
      emptied.reset.entities = emptied.entities ∧
      (∀ e, emptied.reset.has e = emptied.has e) ∧ (∀ e, emptied.reset.get e = emptied.get e) ∧
      (emptied.reset = emptied ↔ emptied.reverse.length = 0) ∧
      (∀ dim, (create dim : ComponentPool Nat).reset = create dim) ∧
      emptied.reset.reset = emptied.reset) :=
  ⟨reachable_emptied, by decide, reset_of_empty uint32 emptied reachable_emptied (by decide)⟩

/-! ## The multi-component pool: routing -/

theorem MultiComponentPool.pool_with_pool_same {n : Nat} {C : Fin n → Type}
    (m : MultiComponentPool n C) (i : Fin n) (q : ComponentPool (C i)) :
    (m.with_pool i q).pool i = q := by
  simp [MultiComponentPool.with_pool]

theorem MultiComponentPool.pool_with_pool_other {n : Nat} {C : Fin n → Type}
    (m : MultiComponentPool n C) {i j : Fin n} (h : j ≠ i) (q : ComponentPool (C i)) :
    (m.with_pool i q).pool j = m.pool j := by
  simp [MultiComponentPool.with_pool, Function.update_noteq h]

theorem MultiComponentPool.ext_pool {n : Nat} {C : Fin n → Type}
    {m m' : MultiComponentPool n C} (h : ∀ i, m.pool i = m'.pool i) : m = m' := by
  cases m; cases m'
  simp only [MultiComponentPool.mk.injEq]
  exact funext h

theorem MultiComponentPool.construct_pool {n : Nat} {C : Fin n → Type} (T : EntityType)
    (m : MultiComponentPool n C) (i : Fin n) (e : Nat) (v : C i) :
    (m.construct T i e v).map (fun r => (r.1.pool i, r.2)) = (m.pool i).construct T e v := by
  unfold MultiComponentPool.construct
  cases (m.pool i).construct T e v with
  | error f => rfl
  | ok r => simp [Except.map, MultiComponentPool.pool_with_pool_same]

theorem MultiComponentPool.construct_other {n : Nat} {C : Fin n → Type} (T : EntityType)
    (m m' : MultiComponentPool n C) {i j : Fin n} (hij : j ≠ i) (e : Nat) (v : C i) (ref : Nat)
    (h : m.construct T i e v = .ok (m', ref)) : m'.pool j = m.pool j := by
  unfold MultiComponentPool.construct at h
  cases hc : (m.pool i).construct T e v with
  | error f => rw [hc] at h; cases h
  | ok r =>
    rw [hc] at h
    simp only [Except.map, Except.ok.injEq, Prod.mk.injEq] at h
    rw [← h.1]
    exact m.pool_with_pool_other hij _

theorem MultiComponentPool.destroy_pool {n : Nat} {C : Fin n → Type}
    (m : MultiComponentPool n C) (i : Fin n) (e : Nat) :
    (m.destroy i e).map (fun m' => m'.pool i) = (m.pool i).destroy e := by
  unfold MultiComponentPool.destroy
  cases (m.pool i).destroy e with
  | error f => rfl
  | ok r => simp [Except.map, MultiComponentPool.pool_with_pool_same]

theorem MultiComponentPool.destroy_other {n : Nat} {C : Fin n → Type}
    (m m' : MultiComponentPool n C) {i j : Fin n} (hij : j ≠ i) (e : Nat)
    (h : m.destroy i e = .ok m') : m'.pool j = m.pool j := by
  unfold MultiComponentPool.destroy at h
  cases hc : (m.pool i).destroy e with
  | error f => rw [hc] at h; cases h
  | ok r =>
    rw [hc] at h
    simp only [Except.map, Except.ok.injEq] at h
    rw [← h]
    exact m.pool_with_pool_other hij _

/-- C14 (routing and independence): in a multi-component pool, for a declared
type `i` and any other declared type `j`, the queries `has`, `get`, `size`,
`empty` and `entities` for `i` are those of the set owned for `i`; `construct`
(both overloads), `destroy` and `reset` for `i` return what the same operation
returns on that set and leave it in the state that operation produces; the set
owned for `j` is unchanged; and an entity constructed for `i` in a fresh pool is
present for `i` and absent for `j`. -/
theorem composer_routing {n : Nat} {C : Fin n → Type} (T : EntityType)
    (m : MultiComponentPool n C) (i j : Fin n) (hij : j ≠ i) (e : Nat) :
    (m.has i e = (m.pool i).has e ∧ m.get i e = (m.pool i).get e ∧
      m.size i = (m.pool i).size ∧ m.empty i = (m.pool i).empty ∧
      m.entities i = (m.pool i).entities) ∧
    (∀ v, (m.construct T i e v).map (fun r => (r.1.pool i, r.2)) = (m.pool i).construct T e v) ∧
    (∀ v, (m.construct_component T i e v).map (fun r => (r.1.pool i, r.2)) =
      (m.pool i).construct_component T e v) ∧
    (m.destroy i e).map (fun m' => m'.pool i) = (m.pool i).destroy e ∧
    (m.reset i).pool i = (m.pool i).reset ∧
    (∀ v m' ref, m.construct T i e v = .ok (m', ref) → m'.pool j = m.pool j) ∧
    (∀ v m' ref, m.construct_component T i e v = .ok (m', ref) → m'.pool j = m.pool j) ∧
    (∀ m', m.destroy i e = .ok m' → m'.pool j = m.pool j) ∧
    (m.reset i).pool j = m.pool j ∧
    (∀ v, e < 2 ^ T.bits → T.succ e = e + 1 →
      ∃ m' ref, (MultiComponentPool.create : MultiComponentPool n C).construct T i e v =
          .ok (m', ref) ∧ m'.has i e = true ∧ m'.has j e = false) := by
  refine ⟨⟨rfl, rfl, rfl, rfl, rfl⟩, fun v => m.construct_pool T i e v,
    fun v => m.construct_pool T i e v, m.destroy_pool i e, m.pool_with_pool_same i _,
    fun v m' ref h => m.construct_other T m' hij e v ref h,
    fun v m' ref h => m.construct_other T m' hij e v ref h,
    fun m' h => m.destroy_other m' hij e h, m.pool_with_pool_other hij _, ?_⟩
  intro v he hs
  obtain ⟨q, ref, hq, -, -, hhas, -⟩ :=
    construct_of_fits T (ComponentPool.create : ComponentPool (C i)) e v
      (Reachable.create 4098) he (by simp [ComponentPool.has, valid, ComponentPool.create])
      (Or.inr hs)
  refine ⟨(MultiComponentPool.create : MultiComponentPool n C).with_pool i q, ref, ?_, ?_, ?_⟩
  · simp only [MultiComponentPool.construct, MultiComponentPool.create]
    rw [hq]
    rfl
  · show (((MultiComponentPool.create : MultiComponentPool n C).with_pool i q).pool i).has e = true
    rw [MultiComponentPool.pool_with_pool_same]
    exact hhas
  · show (((MultiComponentPool.create : MultiComponentPool n C).with_pool i q).pool j).has e = false
    rw [MultiComponentPool.pool_with_pool_other _ hij]
    simp [MultiComponentPool.create, ComponentPool.has, valid, ComponentPool.create]

/-- Witness of C14 in a pool of two types, the first holding the scenario:
entity 7 is present for the first type and absent for the second, and
destroying it for the first type leaves the second set as it was. -/
theorem composer_routing_witness :
    (1 : Fin 2) ≠ 0 ∧ two_pools.has 0 7 = true ∧ two_pools.has 1 7 = false ∧
      (two_pools.destroy 0 7).map (fun m' => m'.pool 0) = (two_pools.pool 0).destroy 7 ∧
      (∀ m', two_pools.destroy 0 7 = .ok m' → m'.pool 1 = two_pools.pool 1) :=
  ⟨by decide, by decide, by decide,
    (composer_routing uint32 two_pools 0 1 (by decide) 7).2.2.2.1,
    (composer_routing uint32 two_pools 0 1 (by decide) 7).2.2.2.2.2.2.2.1⟩

/-! ## The multi-component pool: `reset` of every set -/

theorem ComponentPool.reset_reset {α : Type} (p : ComponentPool α) : p.reset.reset = p.reset := by
  simp [ComponentPool.reset, resize]

theorem MultiComponentPool.foldl_reset_pool {n : Nat} {C : Fin n → Type} :
    ∀ (l : List (Fin n)) (m : MultiComponentPool n C) (i : Fin n),
      (l.foldl MultiComponentPool.reset m).pool i =
        if i ∈ l then (m.pool i).reset else m.pool i
  | [], m, i => by simp
  | a :: l, m, i => by
    rw [List.foldl_cons, MultiComponentPool.foldl_reset_pool l (m.reset a) i]
    by_cases hia : i = a
    · subst hia
      simp [MultiComponentPool.reset, MultiComponentPool.pool_with_pool_same,
        ComponentPool.reset_reset]
    · have hpool : (m.reset a).pool i = m.pool i := m.pool_with_pool_other hia _
      simp [hia, hpool]

theorem MultiComponentPool.reset_all_pool {n : Nat} {C : Fin n → Type}
    (m : MultiComponentPool n C) (i : Fin n) : m.reset_all.pool i = (m.pool i).reset := by
  unfold MultiComponentPool.reset_all
  rw [MultiComponentPool.foldl_reset_pool]
  simp [List.mem_finRange]

/-- C15 (reset of every set): after `reset()` without a type parameter, every
owned set of the multi-component pool is empty (`size` 0, `empty` true, `has`
false for every entity) and is the `reset` of what it was; and resetting the
owned sets one by one with `reset<T>()`, in any order that reaches every
declared type, gives the same state. -/
theorem reset_all_complete {n : Nat} {C : Fin n → Type} (m : MultiComponentPool n C) :
    (∀ i, m.reset_all.size i = 0 ∧ m.reset_all.empty i = true ∧
      ∀ e, m.reset_all.has i e = false) ∧
    (∀ i, m.reset_all.pool i = (m.pool i).reset) ∧
    (∀ l : List (Fin n), (∀ i, i ∈ l) → l.foldl MultiComponentPool.reset m = m.reset_all) := by
  refine ⟨?_, m.reset_all_pool, ?_⟩
  · intro i
    have hp := m.reset_all_pool i
    refine ⟨?_, ?_, ?_⟩
    · show (m.reset_all.pool i).size = 0
      rw [hp]; rfl
    · show (m.reset_all.pool i).empty = true
      rw [hp]; rfl
    · intro e
      show (m.reset_all.pool i).valid e = false
      rw [hp, valid_false_iff]
      rintro ⟨r, -, hd⟩
      simp [ComponentPool.reset] at hd
  · intro l hl
    apply MultiComponentPool.ext_pool
    intro i
    rw [MultiComponentPool.foldl_reset_pool, m.reset_all_pool i]
    simp [hl i]

/-- Witness of C15 in the pool of two types: resetting the second set and then
the first gives the state `reset()` gives. -/
theorem reset_all_complete_witness :
    (∀ i, i ∈ ([1, 0] : List (Fin 2))) ∧
      ([1, 0] : List (Fin 2)).foldl MultiComponentPool.reset two_pools = two_pools.reset_all :=
  ⟨by decide, (reset_all_complete two_pools).2.2 [1, 0] (by decide)⟩

/-! ## Frames of `destroy` and `construct` -/

theorem set_eq_self_of_getElem? {β : Type} {xs : List β} {i : Nat} {x : β}
    (h : xs[i]? = some x) : xs.set i x = xs := by
  apply List.ext_getElem?
  intro j
  rw [List.getElem?_set]
  split
  · rename_i hij
    subst hij
    simp [(List.getElem?_eq_some.1 h).1, h]
  · rfl

theorem dropLast_set_last {β : Type} (xs : List β) (x : β) :
    (xs.set (xs.length - 1) x).dropLast = xs.dropLast := by
  apply List.ext_getElem?
  intro j
  rw [List.getElem?_dropLast, List.getElem?_dropLast, List.length_set, List.getElem?_set]
  split
  · rename_i hj
    have : ¬ xs.length - 1 = j := by omega
    simp [this]
  · rfl

theorem ComponentPool.Inv.destroyed_frame {α : Type} {T : EntityType} {p : ComponentPool α}
    (h : Inv T p) {e r m : Nat} {c : α} (s : Slots p e r m c) {x : Nat} (hne : x ≠ e) :
    (destroyed p r m c).has x = p.has x ∧
      (p.has x = true → (destroyed p r m c).get x = p.get x) := by
  have hq := h.of_destroyed s
  constructor
  · rw [Bool.eq_iff_iff]
    show (destroyed p r m c).valid x = true ↔ p.valid x = true
    rw [hq.valid_iff_mem, h.valid_iff_mem, h.mem_destroyed s]
    exact ⟨fun hx => hx.1, fun hx => ⟨hx, hne⟩⟩
  · intro hx
    obtain ⟨i, hi⟩ := List.mem_iff_getElem?.1 ((h.valid_iff_mem x).1 hx)
    obtain ⟨d, hd⟩ := h.data_at hi
    obtain ⟨j, hj, hjd⟩ := h.slot_destroyed_other s hi hne
    rw [h.get_eq hi hd, hq.get_eq hj (hjd.trans hd)]

theorem ComponentPool.Inv.constructed_frame {α : Type} {T : EntityType} {p : ComponentPool α}
    (h : Inv T p) {e : Nat} (he : e < 2 ^ T.bits) (hv : p.valid e = false) (v : α) {x : Nat}
    (hne : x ≠ e) :
    (constructed T p e v).has x = p.has x ∧
      (p.has x = true → (constructed T p e v).get x = p.get x) := by
  have hq := h.of_constructed he hv v
  constructor
  · rw [Bool.eq_iff_iff]
    show (constructed T p e v).valid x = true ↔ p.valid x = true
    rw [hq.valid_iff_mem, h.valid_iff_mem]
    simp only [constructed, List.mem_append, List.mem_singleton]
    exact ⟨fun hx => hx.resolve_right hne, Or.inl⟩
  · intro hx
    obtain ⟨i, hi⟩ := List.mem_iff_getElem?.1 ((h.valid_iff_mem x).1 hx)
    obtain ⟨d, hd⟩ := h.data_at hi
    have hil : i < p.direct.length := (List.getElem?_eq_some.1 hi).1
    have hi' : (constructed T p e v).direct[i]? = some x := by
      simp only [constructed]
      rw [List.getElem?_append_left hil]
      exact hi
    have hd' : (constructed T p e v).data[i]? = some d := by
      simp only [constructed]
      rw [List.getElem?_append_left (by rw [h.len]; exact hil)]
      exact hd
    rw [h.get_eq hi hd, hq.get_eq hi' hd']

/-- C16 (degenerate swap-remove): in every reachable state, destroying a present
entity that occupies the last slot returns a state whose `reverse` is entirely
unchanged and whose entity and component arrays are the previous ones without
their last element; every other entity keeps its presence and its value. -/
theorem destroy_last_slot {α : Type} (T : EntityType) (p : ComponentPool α) (e : Nat)
    (hp : Reachable T p) (he : p.has e = true) (hlast : p.reverse[e]? = some (p.size - 1)) :
    ∃ q, p.destroy e = .ok q ∧ q.reverse = p.reverse ∧ q.entities = p.entities.dropLast ∧
      q.data = p.data.dropLast ∧
      ∀ x, x ≠ e → q.has x = p.has x ∧ (p.has x = true → q.get x = p.get x) := by
  have h := hp.inv
  obtain ⟨r, m, c, s⟩ := h.slots he
  have hr : r = p.direct.length - 1 := by
    have := s.slot
    rw [hlast, size, h.len] at this
    simpa using this.symm
  have hm : m = e := by
    have := s.moved
    rw [← hr, s.owner] at this
    simpa using this.symm
  subst hm
  refine ⟨destroyed p r m c, h.destroy_ok s, ?_, ?_, ?_, fun x hx => h.destroyed_frame s hx⟩
  · exact set_eq_self_of_getElem? s.slot
  · show (p.direct.set r m).dropLast = p.direct.dropLast
    rw [hr]
    exact dropLast_set_last _ _
  · show (p.data.set r c).dropLast = p.data.dropLast
    rw [hr, ← h.len]
    exact dropLast_set_last _ _

/-- Witness of C16: entity 1 occupies the last slot of the scenario pool. -/
theorem destroy_last_slot_witness :
    Reachable uint32 scenario ∧ scenario.has 1 = true ∧
      scenario.reverse[1]? = some (scenario.size - 1) ∧
      scenario.destroy 1 = .ok ⟨[30, 70], [0, 2, 0, 0, 0, 0, 0, 1], [3, 7]⟩ ∧
      ∃ q, scenario.destroy 1 = .ok q ∧ q.reverse = scenario.reverse ∧
        q.entities = scenario.entities.dropLast ∧ q.data = scenario.data.dropLast ∧
        ∀ x, x ≠ 1 → q.has x = scenario.has x ∧ (scenario.has x = true → q.get x = scenario.get x) :=
  ⟨reachable_scenario, by decide, by decide, by decide,
    destroy_last_slot uint32 scenario 1 reachable_scenario (by decide) (by decide)⟩

/-! ## Growth of `reverse` and index safety -/

/-- In any state, `construct` of an absent entity that the growth step reaches
returns, makes `reverse` as long as the larger of its old length and `e + 1`,
and keeps every old entry of `reverse` at an index other than `e`. -/
theorem construct_reverse_of_fits {α : Type} (T : EntityType) (p : ComponentPool α) (e : Nat)
    (v : α) (hv : p.has e = false) (hf : Fits T p e) :
    ∃ q ref, p.construct T e v = .ok (q, ref) ∧
      q.reverse.length = max p.reverse.length (e + 1) ∧ e < q.reverse.length ∧
      ∀ i, i ≠ e → i < p.reverse.length → q.reverse[i]? = p.reverse[i]? := by
  have hv' : p.valid e = false := hv
  refine ⟨constructed T p e v, p.data.length, ?_, ?_, ?_, ?_⟩
  · rw [construct_eq]; simp [hv', hf]
  · simp [constructed, length_grow]
  · simp only [constructed, List.length_set]
    exact lt_length_grow _ _
  · intro i hie hi
    simp only [constructed]
    rw [List.getElem?_set_ne (Ne.symm hie), getElem?_grow_of_lt hi]

/-- In a reachable state every vector access of `get` and `destroy` on a present
entity is in bounds, `size() - 1` does not underflow, and both calls return. -/
theorem accesses_in_bounds_of_has {α : Type} (T : EntityType) (p : ComponentPool α) (e : Nat)
    (hp : Reachable T p) (he : p.has e = true) :
    ∃ r m, 0 < p.direct.length ∧ p.reverse[e]? = some r ∧
      p.direct[p.direct.length - 1]? = some m ∧ m < p.reverse.length ∧
      r < p.direct.length ∧ r < p.data.length ∧ p.direct.length - 1 < p.data.length ∧
      (∃ d, p.get e = .ok d) ∧ ∃ q, p.destroy e = .ok q := by
  have h := hp.inv
  obtain ⟨r, m, c, s⟩ := h.slots he
  obtain ⟨d, hd⟩ := h.data_at s.owner
  have hr := s.lt
  refine ⟨r, m, by omega, s.slot, s.moved, (List.getElem?_eq_some.1 s.moved_slot).1, hr,
    by rw [h.len]; exact hr, by rw [h.len]; omega, ⟨d, h.get_eq s.owner hd⟩, ⟨_, h.destroy_ok s⟩⟩

/-- In a reachable state `construct` of an absent entity that the growth step
reaches leaves every other entity as present or absent as it was, with the
value it had. -/
theorem construct_frame_of_fits {α : Type} (T : EntityType) (p : ComponentPool α) (e x : Nat)
    (v : α) (hp : Reachable T p) (he : e < 2 ^ T.bits) (hv : p.has e = false) (hf : Fits T p e)
    (hne : x ≠ e) :
    ∃ q ref, p.construct T e v = .ok (q, ref) ∧ q.has x = p.has x ∧
      (p.has x = true → q.get x = p.get x) := by
  have hv' : p.valid e = false := hv
  refine ⟨constructed T p e v, p.data.length, ?_, hp.inv.constructed_frame he hv' v hne⟩
  rw [construct_eq]; simp [hv', hf]

theorem reachable_scenario_destroyed : Reachable uint32 scenario_destroyed :=
  Reachable.step (Call.destroy 7) reachable_scenario (by decide) (by decide)

/-- C17 (growth of `reverse` on insert), evaluated at the largest
`std::uint32_t` entity in a pool whose `reverse` has four entries: the entity
is absent, `entity + 1` is computed with wrap-around and is 0 instead of
4294967296, so `reverse` is resized to length 0 instead of 4294967296, and the
write `reverse[entity]` of both overloads is out of bounds. -/
theorem reverse_growth_at_largest_entity :
    4294967295 < 2 ^ uint32.bits ∧ emptied.has 4294967295 = false ∧
    emptied.reverse.length = 4 ∧ max emptied.reverse.length (4294967295 + 1) = 4294967296 ∧
    uint32.succ 4294967295 = 0 ∧
    (resize emptied.reverse (uint32.succ 4294967295)).length = 0 ∧
    vec_write (resize emptied.reverse (uint32.succ 4294967295)) 4294967295
      (uint32.pos_type emptied.direct.length) = .error .outOfBounds ∧
    emptied.construct uint32 4294967295 7 = .error .outOfBounds ∧
    emptied.construct_component uint32 4294967295 7 = .error .outOfBounds :=
  ⟨by decide, by decide, by decide, by decide, by decide, by decide, by decide, by decide,
    by decide⟩

/-- C18 (membership is the entity list): in every reachable state `has e` is
true exactly when `e` occurs among the first `size` entries of `entities`, and
no entity occurs there twice; stale and filler entries of `reverse` make no
absent entity present. -/
theorem has_iff_mem_entities {α : Type} (T : EntityType) (p : ComponentPool α)
    (hp : Reachable T p) :
    (∀ e, p.has e = true ↔ e ∈ p.entities.take p.size) ∧ (p.entities.take p.size).Nodup ∧
      p.entities.length = p.size := by
  have h := hp.inv
  have htake : p.entities.take p.size = p.direct := by
    simp only [entities, size]
    rw [h.len]
    exact List.take_length _
  refine ⟨?_, ?_, h.len.symm⟩
  · intro e
    rw [htake]
    exact h.valid_iff_mem e
  · rw [htake]
    exact h.nodup

/-- Witness of C18 in the scenario pool after `destroy(7)`: the stale entry
`reverse[7] = 1` and the filler entry `reverse[0] = 0` make neither 7 nor 0
present. -/
theorem has_iff_mem_entities_witness :
    Reachable uint32 scenario_destroyed ∧
      scenario_destroyed.reverse[7]? = some 1 ∧ scenario_destroyed.has 7 = false ∧
      scenario_destroyed.reverse[0]? = some 0 ∧ scenario_destroyed.has 0 = false ∧
      ((∀ e, scenario_destroyed.has e = true ↔
          e ∈ scenario_destroyed.entities.take scenario_destroyed.size) ∧
        (scenario_destroyed.entities.take scenario_destroyed.size).Nodup ∧
        scenario_destroyed.entities.length = scenario_destroyed.size) :=
  ⟨reachable_scenario_destroyed, by decide, by decide, by decide, by decide,
    has_iff_mem_entities uint32 scenario_destroyed reachable_scenario_destroyed⟩

/-- C19 (insert does not disturb other entities), evaluated at the largest
`std::uint32_t` entity in the scenario pool: entity 3 is present and the
entity to insert is absent, but the growth step resizes `reverse` to length 0,
after which entity 3 no longer passes `has`, and the call then faults on the
write `reverse[entity]` instead of returning a state in which 3 is kept. -/
theorem insert_disturbs_at_largest_entity :
    Reachable uint32 scenario ∧ 4294967295 < 2 ^ uint32.bits ∧
    scenario.has 4294967295 = false ∧ (3 : Nat) ≠ 4294967295 ∧
    scenario.has 3 = true ∧ scenario.get 3 = .ok 30 ∧
    resize scenario.reverse (uint32.succ 4294967295) = [] ∧
    ({ scenario with reverse := resize scenario.reverse (uint32.succ 4294967295) } :
      ComponentPool Nat).has 3 = false ∧
    (scenario.construct uint32 4294967295 40).map (fun r => (r.1.has 3, r.1.get 3))
      = .error .outOfBounds :=
  ⟨reachable_scenario, by decide, by decide, by decide, by decide, by decide, by decide,
    by decide, by decide⟩

/-- C20 (index safety), evaluated in the scenario pool after `destroy(7)`: for
the present entity 1 `get` and `destroy` return, but for the absent largest
`std::uint32_t` entity `construct` accesses `reverse[entity]` in a vector of
length 0, which is out of bounds. -/
theorem index_safety_at_largest_entity :
    Reachable uint32 scenario_destroyed ∧
    scenario_destroyed.has 1 = true ∧ scenario_destroyed.get 1 = .ok 10 ∧
    scenario_destroyed.destroy 1 = .ok ⟨[30], [0, 1, 0, 0, 0, 0, 0, 1], [3]⟩ ∧
    4294967295 < 2 ^ uint32.bits ∧ scenario_destroyed.has 4294967295 = false ∧
    (resize scenario_destroyed.reverse (uint32.succ 4294967295)).length = 0 ∧
    ¬ 4294967295 < (resize scenario_destroyed.reverse (uint32.succ 4294967295)).length ∧
    scenario_destroyed.construct uint32 4294967295 40 = .error .outOfBounds ∧
    scenario_destroyed.construct_component uint32 4294967295 40 = .error .outOfBounds :=
  ⟨reachable_scenario_destroyed, by decide, by decide, by decide, by decide, by decide,
    by decide, by decide, by decide, by decide⟩

end entt
